import Mathlib

/-!
# hikari `SoundLibrary`: name catalog, sampler pool and playback arbitration

A shallow embedding of `engine/src/hikari/client/audio/SoundLibrary.cpp`.

* The library object becomes the record `SoundLibrary`; every member function becomes a
  function from the state before the call to the state after it.
* A member call on a stream (`stop`, `stopAllSamplers`, `setCurrentTrack`, `play`) is
  recorded, in program order, in a list of `Command`s next to the state it produces, so that
  ordering properties of one call can be stated.
* `std::vector::at` throwing `std::out_of_range` and a member call through an empty
  `std::shared_ptr` are the two ways a call can fail; both are values of `Failure`.
* Entries are held through `std::shared_ptr` in the source and never written after they are
  built, so they are embedded as values; the pointer `currentlyPlayingSample` becomes the value
  of the entry it points to.
-/

namespace hikari

/-! ## Streams -/

/-- Status reported by a stream (`sf::SoundStream::Status`). -/
inductive Status where
  | Stopped
  | Paused
  | Playing
deriving DecidableEq, Repr

/-- Modelled from the spec: the class `NSFSoundStream` (NSFSoundStream.hpp) is not part of the
sources. Spec section 6 gives its boundary: `open(fileReference) -> success/failure`,
`setCurrentTrack(trackNumber)`, `play()`, `stop()`, `stopAllChannels()` and a non-blocking
`status() -> {Playing, Stopped, Paused}`. A stream is the status it reports, the track it has
selected, the image it was last asked to open and whether that succeeded. -/
structure NSFSoundStream where
  status : Status
  track : Nat
  image : String
  opened : Bool
deriving DecidableEq, Repr

namespace NSFSoundStream

/-- Modelled from the spec: a stream as built by `std::make_shared<NSFSoundStream>(...)`,
before `open`; both logical channels start idle (spec section 4.3, "Initial state: Idle"). -/
def fresh : NSFSoundStream := ⟨Status.Stopped, 0, "", false⟩

/-- Modelled from the spec: `open(fileReference) -> success/failure`; `ok` is the outcome the
file system gives for this file. -/
def openImage (st : NSFSoundStream) (file : String) (ok : Bool) : NSFSoundStream :=
  { st with image := file, opened := ok }

/-- Modelled from the spec: `setCurrentTrack(trackNumber)` selects a track. -/
def setCurrentTrack (st : NSFSoundStream) (t : Nat) : NSFSoundStream :=
  { st with track := t }

/-- Modelled from the spec: `play()`; afterwards the stream reports Playing. -/
def play (st : NSFSoundStream) : NSFSoundStream :=
  { st with status := Status.Playing }

/-- Modelled from the spec: `stop()`; afterwards the stream reports Stopped. -/
def stop (st : NSFSoundStream) : NSFSoundStream :=
  { st with status := Status.Stopped }

/-- Modelled from the spec: `stopAllChannels()` (`stopAllSamplers` in the source) silences the
sub-voices of a sample stream; the stream-level status and the selected track are those of the
stream object, which only the stream-level `stop` that follows changes. -/
def stopAllSamplers (st : NSFSoundStream) : NSFSoundStream := st

/-- Modelled from the spec: `status()`, a snapshot read. -/
def getStatus (st : NSFSoundStream) : Status := st.status

end NSFSoundStream

/-! ## Commands issued to streams -/

/-- The two streams of a sampler pair. -/
inductive Channel where
  | music
  | sample
deriving DecidableEq, Repr

/-- A state-changing member call on a stream. -/
inductive Call where
  | stop
  | stopAllSamplers
  | setCurrentTrack (track : Nat)
  | play
deriving DecidableEq, Repr

/-- Effect of a member call on the stream it is made on. -/
def Call.run : Call → NSFSoundStream → NSFSoundStream
  | Call.stop, st => st.stop
  | Call.stopAllSamplers, st => st.stopAllSamplers
  | Call.setCurrentTrack t, st => st.setCurrentTrack t
  | Call.play, st => st.play

/-- A member call together with the stream object it is made on: the stream of the given
channel of the pair at pool index `slot`. -/
structure Command where
  slot : Nat
  channel : Channel
  call : Call
deriving DecidableEq, Repr

/-- A stream object of the pool, as returned by `playMusic` and `playSample`. -/
structure Handle where
  slot : Nat
  channel : Channel
deriving DecidableEq, Repr

/-! ## Data model -/

/-- `SamplerPair`: two streams held through `std::shared_ptr`, either of which may be empty. -/
structure SamplerPair where
  musicStream : Option NSFSoundStream
  sampleStream : Option NSFSoundStream
deriving DecidableEq, Repr

/-- Stream of one channel of a pair. -/
def SamplerPair.stream (p : SamplerPair) : Channel → Option NSFSoundStream
  | Channel.music => p.musicStream
  | Channel.sample => p.sampleStream

/-- The pair after the stream object of one channel has changed to `st`. -/
def SamplerPair.withStream (p : SamplerPair) (ch : Channel) (st : NSFSoundStream) : SamplerPair :=
  match ch with
  | Channel.music => { p with musicStream := some st }
  | Channel.sample => { p with sampleStream := some st }

/-- `MusicEntry`. -/
structure MusicEntry where
  track : Nat
  samplerId : Nat
deriving DecidableEq, Repr

/-- `SampleEntry`. -/
structure SampleEntry where
  track : Nat
  priority : Nat
  samplerId : Nat
deriving DecidableEq, Repr

/-- Modelled from the spec: the members `music` and `samples` are declared in SoundLibrary.hpp,
which is not part of the sources. Spec section 2 describes them as name-keyed tables mapping a
name to one entry. The source uses them through `insert(std::make_pair(name, entry))`,
`find(name)`, `std::end` and `(*iterator).second`, the interface of the standard unique-key
associative containers (`std::map`, `std::unordered_map`). The table is kept as its list of
key/value pairs. -/
structure Catalog (α : Type) where
  entries : List (String × α)
deriving DecidableEq, Repr

namespace Catalog

variable {α : Type}

/-- The empty table. -/
def empty : Catalog α := ⟨[]⟩

/-- Search of a list of key/value pairs for a key. -/
def findIn : List (String × α) → String → Option α
  | [], _ => none
  | (k, v) :: rest, name => if k = name then some v else findIn rest name

/-- The call `find(name)`: the mapped entry, or `none` for the end iterator. -/
def find (c : Catalog α) (name : String) : Option α := findIn c.entries name

/-- The call `insert(std::make_pair(name, entry))` of a standard unique-key container: the pair
is inserted when no element with that key exists; otherwise the container is left as it is. -/
def insert (c : Catalog α) (name : String) (entry : α) : Catalog α :=
  match c.find name with
  | some _ => c
  | none => ⟨(name, entry) :: c.entries⟩

end Catalog

/-- The members of `SoundLibrary`. `samplers` is used through `push_back` and `at`, a
`std::vector`. -/
structure SoundLibrary where
  isEnabledFlag : Bool
  file : String
  music : Catalog MusicEntry
  samples : Catalog SampleEntry
  samplers : List SamplerPair
  currentlyPlayingSample : Option SampleEntry
deriving DecidableEq, Repr

/-- The two ways a call can fail. -/
inductive Failure where
  | outOfRange
  | nullStream
deriving DecidableEq, Repr

/-- What a call of `playMusic` or `playSample` leaves behind: the returned stream pointer
(`none` for the empty pointer) or the failure, the library state at that point, and the
commands issued to streams, in order. -/
structure Outcome where
  result : Except Failure (Option Handle)
  state : SoundLibrary
  trace : List Command

/-! ## Stream access in the pool -/

/-- Stream object of channel `ch` of the pair at index `slot`, if the index is in range and the
pointer is not empty. -/
def streamAt (pool : List SamplerPair) (slot : Nat) (ch : Channel) : Option NSFSoundStream :=
  match pool[slot]? with
  | some p => p.stream ch
  | none => none

/-- An unguarded member call `stream->call(...)` on the stream of channel `c.channel` of the
pair at index `c.slot`: the pool after the call, or `none` when there is no such stream
object. -/
def perform (c : Command) (pool : List SamplerPair) : Option (List SamplerPair) :=
  match pool[c.slot]? with
  | some p =>
    match p.stream c.channel with
    | some st => some (pool.set c.slot (p.withStream c.channel (c.call.run st)))
    | none => none
  | none => none

/-- Replaying a list of commands on a pool, one after the other; a command that has no stream
to act on changes nothing. -/
def replay : List Command → List SamplerPair → List SamplerPair
  | [], pool => pool
  | c :: rest, pool => replay rest ((perform c pool).getD pool)

/-! ## stopMusic, stopSample -/

/-- The `std::for_each` of `stopMusic`, over the pairs from index `i` on: pairs after the loop
and commands issued. -/
def stopMusicFrom : Nat → List SamplerPair → List SamplerPair × List Command
  | _, [] => ([], [])
  | i, sampler :: rest =>
    let r := stopMusicFrom (i + 1) rest
    match sampler.musicStream with
    | some musicSampler =>
      ({ sampler with musicStream := some musicSampler.stop } :: r.1,
        ⟨i, Channel.music, Call.stop⟩ :: r.2)
    | none => (sampler :: r.1, r.2)

/-- The `std::for_each` of `stopSample`, over the pairs from index `i` on. -/
def stopSampleFrom : Nat → List SamplerPair → List SamplerPair × List Command
  | _, [] => ([], [])
  | i, sampler :: rest =>
    let r := stopSampleFrom (i + 1) rest
    match sampler.sampleStream with
    | some sampleSampler =>
      ({ sampler with sampleStream := some sampleSampler.stopAllSamplers.stop } :: r.1,
        ⟨i, Channel.sample, Call.stopAllSamplers⟩ :: ⟨i, Channel.sample, Call.stop⟩ :: r.2)
    | none => (sampler :: r.1, r.2)

namespace SoundLibrary

/-- `SoundLibrary::stopMusic`. -/
def stopMusic (s : SoundLibrary) : SoundLibrary × List Command :=
  let r := stopMusicFrom 0 s.samplers
  ({ s with samplers := r.1 }, r.2)

/-- `SoundLibrary::stopSample`. -/
def stopSample (s : SoundLibrary) : SoundLibrary × List Command :=
  let r := stopSampleFrom 0 s.samplers
  ({ s with samplers := r.1 }, r.2)

/-! ## addMusic, addSample, isEnabled -/

/-- `SoundLibrary::isEnabled`. -/
def isEnabled (s : SoundLibrary) : Bool := s.isEnabledFlag

/-- `SoundLibrary::addMusic`. -/
def addMusic (s : SoundLibrary) (name : String) (entry : MusicEntry) : SoundLibrary :=
  { s with music := s.music.insert name entry }

/-- `SoundLibrary::addSample`. -/
def addSample (s : SoundLibrary) (name : String) (entry : SampleEntry) : SoundLibrary :=
  { s with samples := s.samples.insert name entry }

/-! ## playMusic, playSample -/

/-- The calls `stream->setCurrentTrack(track); stream->play();` on the stream of channel `ch`
of the pair at index `slot`, made after the stop broadcast that left `stopped`. -/
def startStream (stopped : SoundLibrary × List Command) (slot : Nat) (ch : Channel) (track : Nat) :
    Outcome :=
  match perform ⟨slot, ch, Call.setCurrentTrack track⟩ stopped.1.samplers with
  | none => ⟨Except.error Failure.nullStream, stopped.1, stopped.2⟩
  | some selected =>
    match perform ⟨slot, ch, Call.play⟩ selected with
    | none =>
      ⟨Except.error Failure.nullStream, { stopped.1 with samplers := selected },
        stopped.2 ++ [⟨slot, ch, Call.setCurrentTrack track⟩]⟩
    | some playing =>
      ⟨Except.ok (some ⟨slot, ch⟩), { stopped.1 with samplers := playing },
        stopped.2 ++ [⟨slot, ch, Call.setCurrentTrack track⟩, ⟨slot, ch, Call.play⟩]⟩

/-- `SoundLibrary::playMusic`. -/
def playMusic (s : SoundLibrary) (name : String) : Outcome :=
  match s.music.find name with
  | none => ⟨Except.ok none, s, []⟩
  | some musicEntry =>
    match s.samplers[musicEntry.samplerId]? with
    | none => ⟨Except.error Failure.outOfRange, s, []⟩
    | some _ => startStream s.stopMusic musicEntry.samplerId Channel.music musicEntry.track

/-- Lines 173 to 179 of `playSample`: the request has passed arbitration. -/
def playApproved (s : SoundLibrary) (sampleEntry : SampleEntry) : Outcome :=
  let o := startStream s.stopSample sampleEntry.samplerId Channel.sample sampleEntry.track
  match o.result with
  | Except.ok _ => { o with state := { o.state with currentlyPlayingSample := some sampleEntry } }
  | Except.error _ => o

/-- `SoundLibrary::playSample`. -/
def playSample (s : SoundLibrary) (name : String) : Outcome :=
  match s.samples.find name with
  | none => ⟨Except.ok none, s, []⟩
  | some sampleEntry =>
    match s.samplers[sampleEntry.samplerId]? with
    | none => ⟨Except.error Failure.outOfRange, s, []⟩
    | some _ =>
      match s.currentlyPlayingSample with
      | none => playApproved s sampleEntry
      | some current =>
        match s.samplers[current.samplerId]? with
        | none => ⟨Except.error Failure.outOfRange, s, []⟩
        | some currentlyPlayingSamplerPair =>
          match currentlyPlayingSamplerPair.sampleStream with
          | none => ⟨Except.error Failure.nullStream, s, []⟩
          | some currentlyPlayingStream =>
            if currentlyPlayingStream.getStatus = Status.Playing then
              if sampleEntry.priority < current.priority then ⟨Except.ok none, s, []⟩
              else playApproved s sampleEntry
            else playApproved s sampleEntry

end SoundLibrary

/-! ## loadLibrary -/

/-- A music record of the manifest: `name`, `track`. -/
structure MusicDescriptor where
  name : String
  track : Nat
deriving DecidableEq, Repr

/-- A sample record of the manifest: `name`, `track`, `priority`. -/
structure SampleDescriptor where
  name : String
  track : Nat
  priority : Nat
deriving DecidableEq, Repr

/-- An element of the manifest array: `file`, `music`, `samples`. -/
structure ImageDescriptor where
  file : String
  music : List MusicDescriptor
  samples : List SampleDescriptor
deriving DecidableEq, Repr

/-- The music loop of `loadLibrary` (lines 69 to 79) for the image at `samplerIndex`. -/
def loadMusic (samplerIndex : Nat) : List MusicDescriptor → Catalog MusicEntry → Catalog MusicEntry
  | [], music => music
  | musicEntryJson :: rest, music =>
    loadMusic samplerIndex rest (music.insert musicEntryJson.name ⟨musicEntryJson.track, samplerIndex⟩)

/-- The sample loop of `loadLibrary` (lines 87 to 99) for the image at `samplerIndex`. -/
def loadSamples (samplerIndex : Nat) :
    List SampleDescriptor → Catalog SampleEntry → Catalog SampleEntry
  | [], samples => samples
  | sampleEntryJson :: rest, samples =>
    loadSamples samplerIndex rest
      (samples.insert sampleEntryJson.name
        ⟨sampleEntryJson.track, sampleEntryJson.priority, samplerIndex⟩)

/-- The pair built for one image (lines 51 to 58); `canOpen` tells whether opening succeeds. -/
def openSamplerPair (canOpen : String → Bool) (nsfFile : String) : SamplerPair :=
  let musicStream := NSFSoundStream.fresh.openImage nsfFile (canOpen nsfFile)
  let sampleStream := NSFSoundStream.fresh.openImage nsfFile (canOpen nsfFile)
  ⟨some musicStream, some sampleStream⟩

/-- The outer loop of `loadLibrary` (lines 44 to 100), from index `samplerIndex` on. -/
def loadImages (canOpen : String → Bool) : Nat → List ImageDescriptor → SoundLibrary → SoundLibrary
  | _, [], s => s
  | samplerIndex, currentLibrary :: rest, s =>
    loadImages canOpen (samplerIndex + 1) rest
      { s with
        samplers := s.samplers ++ [openSamplerPair canOpen currentLibrary.file]
        music := loadMusic samplerIndex currentLibrary.music s.music
        samples := loadSamples samplerIndex currentLibrary.samples s.samples }

namespace SoundLibrary

/-- `SoundLibrary::loadLibrary`. `root` is the parsed manifest, `none` when `reader.parse`
fails. -/
def loadLibrary (canOpen : String → Bool) (root : Option (List ImageDescriptor))
    (s : SoundLibrary) : SoundLibrary :=
  let loaded :=
    match root with
    | some images => loadImages canOpen 0 images s
    | none => s
  { loaded with isEnabledFlag := true }

/-- The member initialisers of the constructor (lines 20 to 25), before `loadLibrary` runs. -/
def initial (file : String) : SoundLibrary :=
  ⟨false, file, Catalog.empty, Catalog.empty, [], none⟩

/-- The constructor `SoundLibrary::SoundLibrary`. -/
def create (file : String) (canOpen : String → Bool) (root : Option (List ImageDescriptor)) :
    SoundLibrary :=
  loadLibrary canOpen root (initial file)

end SoundLibrary

end hikari

namespace hikari

/-- Names registered in a table. -/
def Catalog.keys {α : Type} (c : Catalog α) : List String := c.entries.map Prod.fst

/-! ## Vocabulary of the statements -/

/-- A pair after `stop` on its music stream, if it has one. -/
def SamplerPair.haltMusic (p : SamplerPair) : SamplerPair :=
  { p with musicStream := p.musicStream.map NSFSoundStream.stop }

/-- A pair after `stopAllSamplers` and `stop` on its sample stream, if it has one. -/
def SamplerPair.haltSample (p : SamplerPair) : SamplerPair :=
  { p with sampleStream := p.sampleStream.map (fun st => st.stopAllSamplers.stop) }

/-- Whether the stream of channel `ch` of a pair is there and reports Playing. -/
def SamplerPair.isPlaying (ch : Channel) (p : SamplerPair) : Bool :=
  match p.stream ch with
  | some st => decide (st.getStatus = Status.Playing)
  | none => false

/-- Number of streams of channel `ch` in the pool that report Playing. -/
def playingCount (ch : Channel) (pool : List SamplerPair) : Nat :=
  pool.countP (SamplerPair.isPlaying ch)

/-! ## A two-image scenario -/

/-- Image A of the scenario: music "theme" on track 0. -/
def imageA : ImageDescriptor := ⟨"a.nsf", [⟨"theme", 0⟩], []⟩

/-- Image B of the scenario: sample "hit" on track 2 with priority 5. -/
def imageB : ImageDescriptor := ⟨"b.nsf", [], [⟨"hit", 2, 5⟩]⟩

/-- The library built from the manifest `[A, B]`, both images opening. -/
def twoImages : SoundLibrary :=
  SoundLibrary.create "sounds.json" (fun _ => true) (some [imageA, imageB])

/-- The scenario with three more registrations: a weak sample "step" (priority 1) in slot 0,
and a music and a sample entry that point past the end of the pool. -/
def twoImagesPlus : SoundLibrary :=
  ((twoImages.addSample "step" ⟨1, 1, 0⟩).addMusic "lost" ⟨0, 7⟩).addSample "gone" ⟨0, 9, 7⟩

/-- The scenario after `playSample("hit")` has been approved. -/
def hitPlaying : SoundLibrary := (twoImagesPlus.playSample "hit").state

end hikari

namespace hikari

/-! ## Sequences of calls and the consistency of a library state -/

/-- Library state after a sequence of `playMusic` calls, each made on the state the previous
one left. -/
def playMusicSeq : SoundLibrary → List String → SoundLibrary
  | s, [] => s
  | s, name :: rest => playMusicSeq (s.playMusic name).state rest

/-- Library state after a sequence of `playSample` calls, each made on the state the previous
one left. -/
def playSampleSeq : SoundLibrary → List String → SoundLibrary
  | s, [] => s
  | s, name :: rest => playSampleSeq (s.playSample name).state rest

/-- Catalog and pool agree: every `samplerId` a lookup can return, and that of the approved
sample, is an index of the pool, and every pair of the pool has both its streams. -/
structure Consistent (s : SoundLibrary) : Prop where
  music_valid : ∀ name e, s.music.find name = some e → e.samplerId < s.samplers.length
  samples_valid : ∀ name e, s.samples.find name = some e → e.samplerId < s.samplers.length
  current_valid : ∀ c, s.currentlyPlayingSample = some c → c.samplerId < s.samplers.length
  present : ∀ j ch, j < s.samplers.length → (streamAt s.samplers j ch).isSome = true

end hikari

namespace hikari

/-! ## Histories of calls -/

/-- What can happen to a library between two observations: one of the six calls of the
public interface, or a stream that is playing reaching its end. -/
inductive Action where
  | addMusic (name : String) (entry : MusicEntry)
  | addSample (name : String) (entry : SampleEntry)
  | playMusic (name : String)
  | playSample (name : String)
  | stopMusic
  | stopSample
  | finish (slot : Nat) (channel : Channel)
deriving DecidableEq, Repr

/-- Whether an action registers an entry (`addMusic`, `addSample`). -/
def Action.isRegistration : Action → Bool
  | Action.addMusic _ _ => true
  | Action.addSample _ _ => true
  | _ => false

/-- Modelled from the spec: a stream that is playing runs out on its own and then reports
Stopped (spec section 4.3, "the approved one is no longer reported as playing"); a stream
that is not playing, or is not there, is left alone. -/
def finishStream (pool : List SamplerPair) (slot : Nat) (ch : Channel) : List SamplerPair :=
  match streamAt pool slot ch with
  | some st =>
    if st.getStatus = Status.Playing then (perform ⟨slot, ch, Call.stop⟩ pool).getD pool
    else pool
  | none => pool

namespace SoundLibrary

/-- The library after one action; a call that fails leaves the state it had reached. -/
def act (s : SoundLibrary) : Action → SoundLibrary
  | Action.addMusic name entry => s.addMusic name entry
  | Action.addSample name entry => s.addSample name entry
  | Action.playMusic name => (s.playMusic name).state
  | Action.playSample name => (s.playSample name).state
  | Action.stopMusic => s.stopMusic.1
  | Action.stopSample => s.stopSample.1
  | Action.finish slot ch => { s with samplers := finishStream s.samplers slot ch }

/-- The library after a history of actions. -/
def run : SoundLibrary → List Action → SoundLibrary
  | s, [] => s
  | s, a :: rest => run (s.act a) rest

end SoundLibrary

/-- Where a stream comes from: the image it was opened from and whether that succeeded. No
member call changes it, so it tells stream objects apart from replacements. -/
def NSFSoundStream.origin (st : NSFSoundStream) : String × Bool := (st.image, st.opened)

/-- The pool is still the one `loadLibrary` built for `n` images: it has `n` pairs, every pair
has both streams, and the approved sample, if any, points into it. -/
structure PoolIntact (n : Nat) (s : SoundLibrary) : Prop where
  size : s.samplers.length = n
  present : ∀ j ch, j < n → (streamAt s.samplers j ch).isSome = true
  current_valid : ∀ c, s.currentlyPlayingSample = some c → c.samplerId < n

/-- Arbitration looks at the right stream: a sample stream that reports Playing is the one of
the pair the approved sample points to. -/
def ApprovedIsPlaying (s : SoundLibrary) : Prop :=
  ∀ j st, streamAt s.samplers j Channel.sample = some st → st.getStatus = Status.Playing →
    ∃ c, s.currentlyPlayingSample = some c ∧ c.samplerId = j

/-- The broadcast of `stopMusic` in words: going through the pool in order, one `stop` for
every pair that has a music stream. -/
def musicBroadcast (pool : List SamplerPair) : List Command :=
  (pool.enum.filter (fun ip => ip.2.musicStream.isSome)).map
    (fun ip => ⟨ip.1, Channel.music, Call.stop⟩)

/-- The broadcast of `stopSample` in words: going through the pool in order, for every pair
that has a sample stream first `stopAllSamplers`, then `stop`. -/
def sampleBroadcast (pool : List SamplerPair) : List Command :=
  ((pool.enum.filter (fun ip => ip.2.sampleStream.isSome)).map
    (fun ip => [(⟨ip.1, Channel.sample, Call.stopAllSamplers⟩ : Command),
      ⟨ip.1, Channel.sample, Call.stop⟩])).flatten

/-- Whether the stream of channel `ch` of a pair, if there is one, reports Stopped. -/
def SamplerPair.isIdle (ch : Channel) (p : SamplerPair) : Bool :=
  match p.stream ch with
  | some st => decide (st.getStatus = Status.Stopped)
  | none => true

/-- Whether every stream of channel `ch` in the pool reports Stopped. -/
def allIdle (ch : Channel) (pool : List SamplerPair) : Bool :=
  pool.all (SamplerPair.isIdle ch)

/-- A one-pair library whose music and sample streams are paused, with a second pair that has
no streams at all. -/
def pausedLibrary : SoundLibrary :=
  { twoImages with
    samplers := [⟨some ⟨Status.Paused, 0, "a.nsf", true⟩, some ⟨Status.Paused, 0, "a.nsf", true⟩⟩,
      ⟨none, none⟩] }

end hikari

namespace hikari

/-! ## Lemmas on the pool -/

theorem stopMusicFrom_fst (i : Nat) (pool : List SamplerPair) :
    (stopMusicFrom i pool).1 = pool.map SamplerPair.haltMusic := by
  induction pool generalizing i with
  | nil => rfl
  | cons p ps ih =>
    cases hp : p.musicStream <;>
      simp [stopMusicFrom, hp, ih, SamplerPair.haltMusic]
    cases p; simp_all

theorem stopSampleFrom_fst (i : Nat) (pool : List SamplerPair) :
    (stopSampleFrom i pool).1 = pool.map SamplerPair.haltSample := by
  induction pool generalizing i with
  | nil => rfl
  | cons p ps ih =>
    cases hp : p.sampleStream <;>
      simp [stopSampleFrom, hp, ih, SamplerPair.haltSample]
    cases p; simp_all

theorem streamAt_haltMusic (pool : List SamplerPair) (j : Nat) (ch : Channel) :
    streamAt (pool.map SamplerPair.haltMusic) j ch =
      match ch with
      | Channel.music => (streamAt pool j Channel.music).map NSFSoundStream.stop
      | Channel.sample => streamAt pool j Channel.sample := by
  unfold streamAt
  rw [List.getElem?_map]
  cases pool[j]? <;> cases ch <;> simp [SamplerPair.haltMusic, SamplerPair.stream]

theorem streamAt_haltSample (pool : List SamplerPair) (j : Nat) (ch : Channel) :
    streamAt (pool.map SamplerPair.haltSample) j ch =
      match ch with
      | Channel.music => streamAt pool j Channel.music
      | Channel.sample => (streamAt pool j Channel.sample).map NSFSoundStream.stop := by
  unfold streamAt
  rw [List.getElem?_map]
  cases h : pool[j]? <;> cases ch <;>
    simp [SamplerPair.haltSample, SamplerPair.stream, NSFSoundStream.stopAllSamplers]

theorem streamAt_lt {pool : List SamplerPair} {j : Nat} {ch : Channel} {st : NSFSoundStream}
    (h : streamAt pool j ch = some st) : j < pool.length := by
  unfold streamAt at h
  by_contra hlt
  rw [List.getElem?_eq_none (Nat.le_of_not_lt hlt)] at h
  simp at h

theorem perform_of_streamAt (pool : List SamplerPair) (c : Command) {st : NSFSoundStream}
    (h : streamAt pool c.slot c.channel = some st) :
    ∃ pool2, perform c pool = some pool2 ∧ pool2.length = pool.length ∧
      ∀ j ch, streamAt pool2 j ch =
        if j = c.slot ∧ ch = c.channel then some (c.call.run st) else streamAt pool j ch := by
  unfold streamAt at h
  unfold perform
  cases hp : pool[c.slot]? with
  | none => simp [hp] at h
  | some p =>
    simp only [hp] at h
    simp only [h]
    refine ⟨_, rfl, by simp, ?_⟩
    intro j ch
    have hlt : c.slot < pool.length := by
      by_contra hlt
      rw [List.getElem?_eq_none (Nat.le_of_not_lt hlt)] at hp
      simp at hp
    unfold streamAt
    rw [List.getElem?_set]
    by_cases hj : c.slot = j
    · subst hj
      simp only [hlt, if_true, true_and]
      cases ch <;> cases hch : c.channel <;>
        simp [SamplerPair.withStream, SamplerPair.stream, hp, hch]
    · have hj2 : ¬ j = c.slot := fun e => hj e.symm
      simp [hj, hj2]

theorem perform_none_of_streamAt (pool : List SamplerPair) (c : Command)
    (h : streamAt pool c.slot c.channel = none) : perform c pool = none := by
  unfold streamAt at h
  unfold perform
  cases hp : pool[c.slot]? with
  | none => rfl
  | some p => simp only [hp] at h; simp [h]

end hikari

namespace hikari
open SoundLibrary

theorem getElem?_of_streamAt {pool : List SamplerPair} {j : Nat} {ch : Channel}
    {st : NSFSoundStream} (h : streamAt pool j ch = some st) :
    ∃ p, pool[j]? = some p ∧ p.stream ch = some st := by
  unfold streamAt at h
  cases hp : pool[j]? with
  | none => simp [hp] at h
  | some p => exact ⟨p, rfl, by simpa [hp] using h⟩

theorem startStream_of_streamAt (stopped : SoundLibrary × List Command) (slot : Nat)
    (ch : Channel) (track : Nat) {st : NSFSoundStream}
    (h : streamAt stopped.1.samplers slot ch = some st) :
    ∃ pool, startStream stopped slot ch track =
        ⟨Except.ok (some ⟨slot, ch⟩), { stopped.1 with samplers := pool },
          stopped.2 ++ [⟨slot, ch, Call.setCurrentTrack track⟩, ⟨slot, ch, Call.play⟩]⟩ ∧
      replay [⟨slot, ch, Call.setCurrentTrack track⟩, ⟨slot, ch, Call.play⟩]
        stopped.1.samplers = pool ∧
      pool.length = stopped.1.samplers.length ∧
      ∀ j ch2, streamAt pool j ch2 =
        if j = slot ∧ ch2 = ch then some (st.setCurrentTrack track).play
        else streamAt stopped.1.samplers j ch2 := by
  obtain ⟨p1, hp1, hl1, hs1⟩ :=
    perform_of_streamAt stopped.1.samplers ⟨slot, ch, Call.setCurrentTrack track⟩ h
  have h2 : streamAt p1 slot ch = some (st.setCurrentTrack track) := by
    rw [hs1]; simp [Call.run]
  obtain ⟨p2, hp2, hl2, hs2⟩ :=
    perform_of_streamAt p1 ⟨slot, ch, Call.play⟩ h2
  refine ⟨p2, ?_, ?_, by rw [hl2, hl1], ?_⟩
  · simp only [startStream, hp1, hp2]
  · simp [replay, hp1, hp2]
  · intro j ch2
    rw [hs2, hs1]
    by_cases hc : j = slot ∧ ch2 = ch <;> simp [hc, Call.run]

theorem startStream_of_absent (stopped : SoundLibrary × List Command) (slot : Nat)
    (ch : Channel) (track : Nat) (h : streamAt stopped.1.samplers slot ch = none) :
    startStream stopped slot ch track =
      ⟨Except.error Failure.nullStream, stopped.1, stopped.2⟩ := by
  have := perform_none_of_streamAt
    stopped.1.samplers ⟨slot, ch, Call.setCurrentTrack track⟩ h
  simp only [startStream, this]

theorem stopSample_samplers (s : SoundLibrary) :
    s.stopSample.1.samplers = s.samplers.map SamplerPair.haltSample := by
  simp [stopSample, stopSampleFrom_fst]

theorem stopMusic_samplers (s : SoundLibrary) :
    s.stopMusic.1.samplers = s.samplers.map SamplerPair.haltMusic := by
  simp [stopMusic, stopMusicFrom_fst]

/-- What `playApproved` does when the pair of the requested entry has a sample stream. -/
theorem playApproved_of_streamAt (s : SoundLibrary) (e : SampleEntry) {tgt : NSFSoundStream}
    (h : streamAt s.samplers e.samplerId Channel.sample = some tgt) :
    ∃ pool, playApproved s e =
        ⟨Except.ok (some ⟨e.samplerId, Channel.sample⟩),
          { s with samplers := pool, currentlyPlayingSample := some e },
          s.stopSample.2 ++ [⟨e.samplerId, Channel.sample, Call.setCurrentTrack e.track⟩,
            ⟨e.samplerId, Channel.sample, Call.play⟩]⟩ ∧
      replay [⟨e.samplerId, Channel.sample, Call.setCurrentTrack e.track⟩,
        ⟨e.samplerId, Channel.sample, Call.play⟩] s.stopSample.1.samplers = pool ∧
      pool.length = s.samplers.length ∧
      ∀ j ch, streamAt pool j ch =
        if j = e.samplerId ∧ ch = Channel.sample then
          some (tgt.stop.setCurrentTrack e.track).play
        else match ch with
          | Channel.music => streamAt s.samplers j Channel.music
          | Channel.sample => (streamAt s.samplers j Channel.sample).map NSFSoundStream.stop := by
  have h1 : streamAt s.stopSample.1.samplers e.samplerId Channel.sample = some tgt.stop := by
    rw [stopSample_samplers, streamAt_haltSample]; simp [h]
  obtain ⟨pool, hrun, hrep, hlen, hst⟩ :=
    startStream_of_streamAt s.stopSample e.samplerId Channel.sample e.track h1
  refine ⟨pool, ?_, hrep, ?_, ?_⟩
  · simp only [playApproved, hrun]
    simp [stopSample]
  · rw [hlen, stopSample_samplers]; simp
  · intro j ch
    rw [hst, stopSample_samplers, streamAt_haltSample]

/-- What `playMusic` does past the lookup when the pair of the entry has a music stream. -/
theorem startMusic_of_streamAt (s : SoundLibrary) (e : MusicEntry) {tgt : NSFSoundStream}
    (h : streamAt s.samplers e.samplerId Channel.music = some tgt) :
    ∃ pool, startStream s.stopMusic e.samplerId Channel.music e.track =
        ⟨Except.ok (some ⟨e.samplerId, Channel.music⟩), { s with samplers := pool },
          s.stopMusic.2 ++ [⟨e.samplerId, Channel.music, Call.setCurrentTrack e.track⟩,
            ⟨e.samplerId, Channel.music, Call.play⟩]⟩ ∧
      replay [⟨e.samplerId, Channel.music, Call.setCurrentTrack e.track⟩,
        ⟨e.samplerId, Channel.music, Call.play⟩] s.stopMusic.1.samplers = pool ∧
      pool.length = s.samplers.length ∧
      ∀ j ch, streamAt pool j ch =
        if j = e.samplerId ∧ ch = Channel.music then
          some (tgt.stop.setCurrentTrack e.track).play
        else match ch with
          | Channel.music => (streamAt s.samplers j Channel.music).map NSFSoundStream.stop
          | Channel.sample => streamAt s.samplers j Channel.sample := by
  have h1 : streamAt s.stopMusic.1.samplers e.samplerId Channel.music = some tgt.stop := by
    rw [stopMusic_samplers, streamAt_haltMusic]; simp [h]
  obtain ⟨pool, hrun, hrep, hlen, hst⟩ :=
    startStream_of_streamAt s.stopMusic e.samplerId Channel.music e.track h1
  refine ⟨pool, ?_, hrep, ?_, ?_⟩
  · simp only [hrun]
    simp [stopMusic]
  · rw [hlen, stopMusic_samplers]; simp
  · intro j ch
    rw [hst, stopMusic_samplers, streamAt_haltMusic]

/-- C1. Priority rejection: while the approved sample `c` is recorded and its sample stream
reports Playing, a request for a registered name whose entry `e` has a valid `samplerId` and a
priority strictly below that of `c` returns the empty pointer, issues no command, and leaves
the whole library state (every stream, both catalogs, the approved-sample reference) as it
was. -/
theorem playSample_lower_priority_rejected (s : SoundLibrary) (name : String)
    (c e : SampleEntry) (st : NSFSoundStream)
    (hc : s.currentlyPlayingSample = some c)
    (hst : streamAt s.samplers c.samplerId Channel.sample = some st)
    (hplaying : st.getStatus = Status.Playing)
    (he : s.samples.find name = some e)
    (hvalid : e.samplerId < s.samplers.length)
    (hprio : e.priority < c.priority) :
    (s.playSample name).result = Except.ok none ∧
      (s.playSample name).state = s ∧
      (s.playSample name).trace = [] := by
  obtain ⟨cp, hcp, hcs⟩ := getElem?_of_streamAt hst
  have hsome : s.samplers[e.samplerId]? = some (s.samplers[e.samplerId]) :=
    List.getElem?_eq_getElem hvalid
  simp only [SamplerPair.stream] at hcs
  simp [playSample, he, hsome, hc, hcp, hcs, hplaying, hprio]

end hikari

namespace hikari
open SoundLibrary

theorem stop_mem_stopSampleFrom (i : Nat) (pool : List SamplerPair) (j : Nat)
    (src : NSFSoundStream) (h : streamAt pool j Channel.sample = some src) :
    (⟨i + j, Channel.sample, Call.stopAllSamplers⟩ : Command) ∈ (stopSampleFrom i pool).2 ∧
      (⟨i + j, Channel.sample, Call.stop⟩ : Command) ∈ (stopSampleFrom i pool).2 := by
  induction pool generalizing i j with
  | nil => simp [streamAt] at h
  | cons p ps ih =>
    cases j with
    | zero =>
      have hp : p.sampleStream = some src := by simpa [streamAt, SamplerPair.stream] using h
      simp [stopSampleFrom, hp]
    | succ j =>
      have hps : streamAt ps j Channel.sample = some src := by simpa [streamAt] using h
      have := ih (i + 1) j hps
      have e : i + 1 + j = i + (j + 1) := by omega
      rw [e] at this
      cases hp : p.sampleStream <;> simp [stopSampleFrom, hp, this]

theorem stop_mem_stopMusicFrom (i : Nat) (pool : List SamplerPair) (j : Nat)
    (src : NSFSoundStream) (h : streamAt pool j Channel.music = some src) :
    (⟨i + j, Channel.music, Call.stop⟩ : Command) ∈ (stopMusicFrom i pool).2 := by
  induction pool generalizing i j with
  | nil => simp [streamAt] at h
  | cons p ps ih =>
    cases j with
    | zero =>
      have hp : p.musicStream = some src := by simpa [streamAt, SamplerPair.stream] using h
      simp [stopMusicFrom, hp]
    | succ j =>
      have hps : streamAt ps j Channel.music = some src := by simpa [streamAt] using h
      have := ih (i + 1) j hps
      have e : i + 1 + j = i + (j + 1) := by omega
      rw [e] at this
      cases hp : p.musicStream <;> simp [stopMusicFrom, hp, this]

/-- The arbitration of `playSample` lets the request through: the approved sample `c` is
playing and its priority does not exceed that of the requested entry. -/
theorem playSample_eq_playApproved_of_le (s : SoundLibrary) (name : String)
    (c e : SampleEntry) (st tgt : NSFSoundStream)
    (hc : s.currentlyPlayingSample = some c)
    (hst : streamAt s.samplers c.samplerId Channel.sample = some st)
    (he : s.samples.find name = some e)
    (htgt : streamAt s.samplers e.samplerId Channel.sample = some tgt)
    (hprio : st.getStatus = Status.Playing → c.priority ≤ e.priority) :
    s.playSample name = playApproved s e := by
  obtain ⟨cp, hcp, hcs⟩ := getElem?_of_streamAt hst
  obtain ⟨tp, htp, -⟩ := getElem?_of_streamAt htgt
  simp only [SamplerPair.stream] at hcs
  simp only [playSample, he, htp, hc, hcp, hcs]
  by_cases hp : st.getStatus = Status.Playing
  · simp [hp, Nat.not_lt.mpr (hprio hp)]
  · simp [hp]

theorem playSample_eq_playApproved_of_none (s : SoundLibrary) (name : String)
    (e : SampleEntry) (tgt : NSFSoundStream)
    (hc : s.currentlyPlayingSample = none)
    (he : s.samples.find name = some e)
    (htgt : streamAt s.samplers e.samplerId Channel.sample = some tgt) :
    s.playSample name = playApproved s e := by
  obtain ⟨tp, htp, -⟩ := getElem?_of_streamAt htgt
  simp only [playSample, he, htp, hc]

/-- State and result of `playApproved`, read off stream by stream. -/
theorem playApproved_spec (s : SoundLibrary) (e : SampleEntry) {tgt : NSFSoundStream}
    (htgt : streamAt s.samplers e.samplerId Channel.sample = some tgt) :
    (playApproved s e).result = Except.ok (some ⟨e.samplerId, Channel.sample⟩) ∧
      (playApproved s e).trace =
        s.stopSample.2 ++ [⟨e.samplerId, Channel.sample, Call.setCurrentTrack e.track⟩,
          ⟨e.samplerId, Channel.sample, Call.play⟩] ∧
      (∀ j src, streamAt s.samplers j Channel.sample = some src →
        (⟨j, Channel.sample, Call.stop⟩ : Command) ∈ (playApproved s e).trace) ∧
      streamAt (playApproved s e).state.samplers e.samplerId Channel.sample =
        some ⟨Status.Playing, e.track, tgt.image, tgt.opened⟩ ∧
      (∀ j other, j ≠ e.samplerId →
        streamAt (playApproved s e).state.samplers j Channel.sample = some other →
        other.getStatus = Status.Stopped) ∧
      (playApproved s e).state.currentlyPlayingSample = some e := by
  obtain ⟨pool, hrun, -, -, hpool⟩ := playApproved_of_streamAt s e htgt
  rw [hrun]
  refine ⟨rfl, rfl, ?_, ?_, ?_, rfl⟩
  · intro j src hsrc
    have := (stop_mem_stopSampleFrom 0 s.samplers j src hsrc).2
    simp only [Nat.zero_add] at this
    simp only [List.mem_append]
    exact Or.inl this
  · simp only [hpool]
    simp [NSFSoundStream.play, NSFSoundStream.setCurrentTrack, NSFSoundStream.stop]
  · intro j other hj hother
    simp only [hpool] at hother
    simp only [hj, false_and, if_false] at hother
    cases hsrc : streamAt s.samplers j Channel.sample with
    | none => simp [hsrc] at hother
    | some src =>
      simp [hsrc] at hother
      subst hother
      rfl

/-- The arbitration of `playSample` turns the request down: the approved sample `c` is playing
and the requested entry has a strictly lower priority. -/
theorem playSample_eq_rejected (s : SoundLibrary) (name : String)
    (c e : SampleEntry) (st : NSFSoundStream)
    (hc : s.currentlyPlayingSample = some c)
    (hst : streamAt s.samplers c.samplerId Channel.sample = some st)
    (hplaying : st.getStatus = Status.Playing)
    (he : s.samples.find name = some e)
    (hvalid : e.samplerId < s.samplers.length)
    (hprio : e.priority < c.priority) :
    s.playSample name = ⟨Except.ok none, s, []⟩ := by
  obtain ⟨cp, hcp, hcs⟩ := getElem?_of_streamAt hst
  have hsome : s.samplers[e.samplerId]? = some (s.samplers[e.samplerId]) :=
    List.getElem?_eq_getElem hvalid
  simp only [SamplerPair.stream] at hcs
  simp [playSample, he, hsome, hc, hcp, hcs, hplaying, hprio]

end hikari

namespace hikari
open SoundLibrary

/-! ## Lemmas on the catalog -/

theorem Catalog.findIn_eq_none_iff {α : Type} (l : List (String × α)) (name : String) :
    Catalog.findIn l name = none ↔ name ∉ l.map Prod.fst := by
  induction l with
  | nil => simp [Catalog.findIn]
  | cons kv rest ih =>
    obtain ⟨k, v⟩ := kv
    by_cases hk : k = name
    · simp [Catalog.findIn, hk]
    · have hk2 : ¬ name = k := fun e => hk e.symm
      simp [Catalog.findIn, hk, hk2, ih]

theorem Catalog.find_eq_none_iff {α : Type} (c : Catalog α) (name : String) :
    c.find name = none ↔ name ∉ c.keys :=
  Catalog.findIn_eq_none_iff c.entries name

theorem Catalog.find_insert {α : Type} (c : Catalog α) (n : String) (e : α) (name : String) :
    (c.insert n e).find name =
      if n = name then some ((c.find name).getD e) else c.find name := by
  unfold Catalog.insert
  cases hn : c.find n with
  | some x =>
    by_cases h : n = name
    · subst h; simp [hn]
    · simp [h]
  | none =>
    by_cases h : n = name
    · subst h; simp [Catalog.find, Catalog.findIn] at hn ⊢; simp [hn]
    · simp [Catalog.find, Catalog.findIn, h]

theorem Catalog.insert_of_find {α : Type} (c : Catalog α) (n : String) (e x : α)
    (h : c.find n = some x) : c.insert n e = c := by
  simp [Catalog.insert, h]

/-! ## Claims C1 to C3: sample arbitration -/

/-- C2. Pre-emption and restart: while the approved sample `c` is recorded and its sample
stream reports Playing, a request for a registered name whose entry `e` addresses a sample
stream of the pool and has a priority greater than or equal to that of `c` (so also `e = c`)
is carried out: a stop is issued to every sample stream, the call returns the sample stream of
the pair at `e.samplerId`, that stream is Playing on track `e.track`, every other sample
stream is Stopped, and the approved-sample reference is `e`. -/
theorem playSample_preempts (s : SoundLibrary) (name : String)
    (c e : SampleEntry) (st tgt : NSFSoundStream)
    (hc : s.currentlyPlayingSample = some c)
    (hst : streamAt s.samplers c.samplerId Channel.sample = some st)
    (_hplaying : st.getStatus = Status.Playing)
    (he : s.samples.find name = some e)
    (htgt : streamAt s.samplers e.samplerId Channel.sample = some tgt)
    (hprio : e.priority ≥ c.priority) :
    (s.playSample name).result = Except.ok (some ⟨e.samplerId, Channel.sample⟩) ∧
      (s.playSample name).trace =
        s.stopSample.2 ++ [⟨e.samplerId, Channel.sample, Call.setCurrentTrack e.track⟩,
          ⟨e.samplerId, Channel.sample, Call.play⟩] ∧
      (∀ j src, streamAt s.samplers j Channel.sample = some src →
        (⟨j, Channel.sample, Call.stop⟩ : Command) ∈ (s.playSample name).trace) ∧
      streamAt (s.playSample name).state.samplers e.samplerId Channel.sample =
        some ⟨Status.Playing, e.track, tgt.image, tgt.opened⟩ ∧
      (∀ j other, j ≠ e.samplerId →
        streamAt (s.playSample name).state.samplers j Channel.sample = some other →
        other.getStatus = Status.Stopped) ∧
      (s.playSample name).state.currentlyPlayingSample = some e := by
  rw [playSample_eq_playApproved_of_le s name c e st tgt hc hst he htgt (fun _ => hprio)]
  exact playApproved_spec s e htgt

/-- C3. Arbitration passes when nothing is contending: if no approved sample is recorded, or
the sample stream of the approved sample does not report Playing, a request for a registered
name whose entry `e` addresses a sample stream of the pool returns that stream and starts it on
track `e.track`, whatever the priority of `e`, and `e` becomes the approved sample. -/
theorem playSample_passes_when_idle (s : SoundLibrary) (name : String)
    (e : SampleEntry) (tgt : NSFSoundStream)
    (he : s.samples.find name = some e)
    (htgt : streamAt s.samplers e.samplerId Channel.sample = some tgt)
    (hidle : s.currentlyPlayingSample = none ∨
      ∃ c st, s.currentlyPlayingSample = some c ∧
        streamAt s.samplers c.samplerId Channel.sample = some st ∧
        st.getStatus ≠ Status.Playing) :
    (s.playSample name).result = Except.ok (some ⟨e.samplerId, Channel.sample⟩) ∧
      streamAt (s.playSample name).state.samplers e.samplerId Channel.sample =
        some ⟨Status.Playing, e.track, tgt.image, tgt.opened⟩ ∧
      (s.playSample name).state.currentlyPlayingSample = some e := by
  have key : s.playSample name = playApproved s e := by
    rcases hidle with hnone | ⟨c, st, hc, hst, hnot⟩
    · exact playSample_eq_playApproved_of_none s name e tgt hnone he htgt
    · exact playSample_eq_playApproved_of_le s name c e st tgt hc hst he htgt
        (fun h => absurd h hnot)
  rw [key]
  obtain ⟨h1, -, -, h4, -, h6⟩ := playApproved_spec s e htgt
  exact ⟨h1, h4, h6⟩

/-! ## Claim C6: unknown names -/

/-- C6. Unknown name: `playMusic` of a name that is not a key of the music catalog, and
`playSample` of a name that is not a key of the sample catalog, return the empty pointer,
issue no command and leave the whole library state (streams, approved-sample reference,
catalogs) as it was. -/
theorem unknown_name_no_effect (s : SoundLibrary) (name : String) :
    (name ∉ s.music.keys →
      (s.playMusic name).result = Except.ok none ∧ (s.playMusic name).state = s ∧
        (s.playMusic name).trace = []) ∧
    (name ∉ s.samples.keys →
      (s.playSample name).result = Except.ok none ∧ (s.playSample name).state = s ∧
        (s.playSample name).trace = []) := by
  constructor
  · intro h
    have hf := (Catalog.find_eq_none_iff s.music name).mpr h
    simp [playMusic, hf]
  · intro h
    have hf := (Catalog.find_eq_none_iff s.samples name).mpr h
    simp [playSample, hf]

/-! ## Claim C9: entries that point outside the pool -/

/-- C9. Pool desynchronisation: when the entry registered under the name has a `samplerId`
that is not below the pool size, `playMusic` (respectively `playSample`) fails with the
out-of-range failure of `at`; no command has been issued to any stream and the library state
is the one before the call. -/
theorem out_of_range_fails_unchanged (s : SoundLibrary) (name : String) :
    (∀ e, s.music.find name = some e → e.samplerId ≥ s.samplers.length →
      (s.playMusic name).result = Except.error Failure.outOfRange ∧
        (s.playMusic name).state = s ∧ (s.playMusic name).trace = []) ∧
    (∀ e, s.samples.find name = some e → e.samplerId ≥ s.samplers.length →
      (s.playSample name).result = Except.error Failure.outOfRange ∧
        (s.playSample name).state = s ∧ (s.playSample name).trace = []) := by
  constructor
  · intro e he hge
    have hnone : s.samplers[e.samplerId]? = none := List.getElem?_eq_none hge
    simp [playMusic, he, hnone]
  · intro e he hge
    have hnone : s.samplers[e.samplerId]? = none := List.getElem?_eq_none hge
    simp [playSample, he, hnone]

end hikari

namespace hikari
open SoundLibrary

theorem playSample_lower_priority_rejected_witness :
    (hitPlaying.playSample "step").result = Except.ok none ∧
      (hitPlaying.playSample "step").state = hitPlaying ∧
      (hitPlaying.playSample "step").trace = [] :=
  playSample_lower_priority_rejected hitPlaying "step" ⟨2, 5, 1⟩ ⟨1, 1, 0⟩
    ⟨Status.Playing, 2, "b.nsf", true⟩ (by decide) (by decide) (by decide) (by decide)
    (by decide) (by decide)

theorem playSample_preempts_witness :
    (hitPlaying.playSample "hit").result = Except.ok (some ⟨1, Channel.sample⟩) ∧
      streamAt (hitPlaying.playSample "hit").state.samplers 1 Channel.sample =
        some ⟨Status.Playing, 2, "b.nsf", true⟩ ∧
      (hitPlaying.playSample "hit").state.currentlyPlayingSample = some ⟨2, 5, 1⟩ :=
  have h := playSample_preempts hitPlaying "hit" ⟨2, 5, 1⟩ ⟨2, 5, 1⟩
    ⟨Status.Playing, 2, "b.nsf", true⟩ ⟨Status.Playing, 2, "b.nsf", true⟩
    (by decide) (by decide) (by decide) (by decide) (by decide) (by decide)
  ⟨h.1, h.2.2.2.1, h.2.2.2.2.2⟩

theorem playSample_passes_when_idle_witness :
    (hitPlaying.stopSample.1.playSample "step").result = Except.ok (some ⟨0, Channel.sample⟩) ∧
      streamAt (hitPlaying.stopSample.1.playSample "step").state.samplers 0 Channel.sample =
        some ⟨Status.Playing, 1, "a.nsf", true⟩ ∧
      (hitPlaying.stopSample.1.playSample "step").state.currentlyPlayingSample =
        some ⟨1, 1, 0⟩ :=
  playSample_passes_when_idle hitPlaying.stopSample.1 "step" ⟨1, 1, 0⟩
    ⟨Status.Stopped, 0, "a.nsf", true⟩ (by decide) (by decide)
    (Or.inr ⟨⟨2, 5, 1⟩, ⟨Status.Stopped, 2, "b.nsf", true⟩, by decide, by decide, by decide⟩)

theorem unknown_name_no_effect_witness :
    ((hitPlaying.playMusic "no-such-track").result = Except.ok none ∧
        (hitPlaying.playMusic "no-such-track").state = hitPlaying ∧
        (hitPlaying.playMusic "no-such-track").trace = []) ∧
      ((hitPlaying.playSample "no-such-track").result = Except.ok none ∧
        (hitPlaying.playSample "no-such-track").state = hitPlaying ∧
        (hitPlaying.playSample "no-such-track").trace = []) :=
  ⟨(unknown_name_no_effect hitPlaying "no-such-track").1 (by decide),
    (unknown_name_no_effect hitPlaying "no-such-track").2 (by decide)⟩

theorem out_of_range_fails_unchanged_witness :
    ((hitPlaying.playMusic "lost").result = Except.error Failure.outOfRange ∧
        (hitPlaying.playMusic "lost").state = hitPlaying ∧
        (hitPlaying.playMusic "lost").trace = []) ∧
      ((hitPlaying.playSample "gone").result = Except.error Failure.outOfRange ∧
        (hitPlaying.playSample "gone").state = hitPlaying ∧
        (hitPlaying.playSample "gone").trace = []) :=
  ⟨(out_of_range_fails_unchanged hitPlaying "lost").1 ⟨0, 7⟩ (by decide) (by decide),
    (out_of_range_fails_unchanged hitPlaying "gone").2 ⟨0, 9, 7⟩ (by decide) (by decide)⟩

end hikari

namespace hikari
open SoundLibrary

/-! ## Claim C7: registration -/

/-- C7, as stated, fails: registering "boss" twice in the two-image library leaves the first
entry in the music catalog, and `playMusic("boss")` then plays slot 0 (the first entry), not
slot 1 (the second); likewise for samples. -/
theorem addMusic_twice_keeps_first :
    ((twoImages.addMusic "boss" ⟨3, 0⟩).addMusic "boss" ⟨4, 1⟩).music.find "boss" ≠
        some ⟨4, 1⟩ ∧
      ((twoImages.addMusic "boss" ⟨3, 0⟩).addMusic "boss" ⟨4, 1⟩).music.find "boss" =
        some ⟨3, 0⟩ ∧
      (((twoImages.addMusic "boss" ⟨3, 0⟩).addMusic "boss" ⟨4, 1⟩).playMusic "boss").result =
        Except.ok (some ⟨0, Channel.music⟩) ∧
      ((twoImages.addSample "zap" ⟨3, 1, 0⟩).addSample "zap" ⟨4, 2, 1⟩).samples.find "zap" =
        some ⟨3, 1, 0⟩ ∧
      (twoImages.addMusic "theme" ⟨9, 1⟩).music.find "theme" = some ⟨0, 0⟩ := by
  refine ⟨by decide, by decide, ?_, by decide, by decide⟩
  rfl

/-- C7, amended. Registration inserts only when the name is absent, first write wins: after
`addMusic(name, m1)` the music catalog maps `name` to the entry it already held, or to `m1` if
it held none; a second `addMusic(name, m2)` changes nothing at all, so a following
`playMusic(name)` behaves as it did before the second registration; a name that is already in
the catalog (for instance put there by `loadLibrary`) keeps its entry. The same holds for
`addSample` and `playSample`. -/
theorem registration_first_write_wins (s : SoundLibrary) (name : String)
    (m1 m2 : MusicEntry) (x1 x2 : SampleEntry) :
    ((s.addMusic name m1).music.find name = some ((s.music.find name).getD m1) ∧
      (s.addMusic name m1).addMusic name m2 = s.addMusic name m1 ∧
      ((s.addMusic name m1).addMusic name m2).playMusic name =
        (s.addMusic name m1).playMusic name ∧
      ((s.music.find name).isSome → s.addMusic name m1 = s)) ∧
    ((s.addSample name x1).samples.find name = some ((s.samples.find name).getD x1) ∧
      (s.addSample name x1).addSample name x2 = s.addSample name x1 ∧
      ((s.addSample name x1).addSample name x2).playSample name =
        (s.addSample name x1).playSample name ∧
      ((s.samples.find name).isSome → s.addSample name x1 = s)) := by
  have hm : (s.addMusic name m1).music.find name = some ((s.music.find name).getD m1) := by
    simp [addMusic, Catalog.find_insert]
  have hx : (s.addSample name x1).samples.find name = some ((s.samples.find name).getD x1) := by
    simp [addSample, Catalog.find_insert]
  have hm2 : (s.addMusic name m1).addMusic name m2 = s.addMusic name m1 := by
    show ({ s.addMusic name m1 with music := (s.addMusic name m1).music.insert name m2 } :
      SoundLibrary) = _
    rw [Catalog.insert_of_find _ name m2 _ hm]
  have hx2 : (s.addSample name x1).addSample name x2 = s.addSample name x1 := by
    show ({ s.addSample name x1 with samples := (s.addSample name x1).samples.insert name x2 } :
      SoundLibrary) = _
    rw [Catalog.insert_of_find _ name x2 _ hx]
  refine ⟨⟨hm, hm2, by rw [hm2], ?_⟩, ⟨hx, hx2, by rw [hx2], ?_⟩⟩
  · intro h
    obtain ⟨e0, he0⟩ := Option.isSome_iff_exists.mp h
    show ({ s with music := s.music.insert name m1 } : SoundLibrary) = s
    rw [Catalog.insert_of_find _ name m1 e0 he0]
  · intro h
    obtain ⟨e0, he0⟩ := Option.isSome_iff_exists.mp h
    show ({ s with samples := s.samples.insert name x1 } : SoundLibrary) = s
    rw [Catalog.insert_of_find _ name x1 e0 he0]

theorem registration_first_write_wins_witness :
    twoImages.addMusic "theme" ⟨9, 1⟩ = twoImages ∧
      twoImages.addSample "hit" ⟨9, 0, 0⟩ = twoImages :=
  ⟨(registration_first_write_wins twoImages "theme" ⟨9, 1⟩ ⟨9, 1⟩ ⟨9, 0, 0⟩ ⟨9, 0, 0⟩).1.2.2.2
      (by decide),
    (registration_first_write_wins twoImages "hit" ⟨9, 1⟩ ⟨9, 1⟩ ⟨9, 0, 0⟩ ⟨9, 0, 0⟩).2.2.2.2
      (by decide)⟩

end hikari

namespace hikari
open SoundLibrary

/-! ## Claim C8: what loadLibrary builds -/

theorem loadMusic_find (k : Nat) (mds : List MusicDescriptor) (music : Catalog MusicEntry)
    (name : String) (e : MusicEntry) (h : (loadMusic k mds music).find name = some e) :
    music.find name = some e ∨ ∃ md ∈ mds, md.name = name ∧ e = ⟨md.track, k⟩ := by
  induction mds generalizing music with
  | nil => exact Or.inl h
  | cons md rest ih =>
    rcases ih _ h with h1 | ⟨md2, hmem, hn, he⟩
    · rw [Catalog.find_insert] at h1
      by_cases hname : md.name = name
      · rw [if_pos hname] at h1
        cases hf : music.find name with
        | some x => left; simpa [hf] using h1
        | none =>
          right
          refine ⟨md, List.mem_cons_self _ _, hname, ?_⟩
          simpa [hf] using h1.symm
      · rw [if_neg hname] at h1
        exact Or.inl h1
    · exact Or.inr ⟨md2, List.mem_cons_of_mem _ hmem, hn, he⟩

theorem loadSamples_find (k : Nat) (sds : List SampleDescriptor) (samples : Catalog SampleEntry)
    (name : String) (e : SampleEntry) (h : (loadSamples k sds samples).find name = some e) :
    samples.find name = some e ∨
      ∃ sd ∈ sds, sd.name = name ∧ e = ⟨sd.track, sd.priority, k⟩ := by
  induction sds generalizing samples with
  | nil => exact Or.inl h
  | cons sd rest ih =>
    rcases ih _ h with h1 | ⟨sd2, hmem, hn, he⟩
    · rw [Catalog.find_insert] at h1
      by_cases hname : sd.name = name
      · rw [if_pos hname] at h1
        cases hf : samples.find name with
        | some x => left; simpa [hf] using h1
        | none =>
          right
          refine ⟨sd, List.mem_cons_self _ _, hname, ?_⟩
          simpa [hf] using h1.symm
      · rw [if_neg hname] at h1
        exact Or.inl h1
    · exact Or.inr ⟨sd2, List.mem_cons_of_mem _ hmem, hn, he⟩

theorem loadImages_samplers (canOpen : String → Bool) (k : Nat) (images : List ImageDescriptor)
    (s : SoundLibrary) :
    (loadImages canOpen k images s).samplers =
      s.samplers ++ images.map (fun d => openSamplerPair canOpen d.file) := by
  induction images generalizing k s with
  | nil => simp [loadImages]
  | cons d rest ih => simp [loadImages, ih]

theorem loadImages_current (canOpen : String → Bool) (k : Nat) (images : List ImageDescriptor)
    (s : SoundLibrary) :
    (loadImages canOpen k images s).currentlyPlayingSample = s.currentlyPlayingSample := by
  induction images generalizing k s with
  | nil => simp [loadImages]
  | cons d rest ih => simp [loadImages, ih]

theorem loadImages_music_find (canOpen : String → Bool) (k : Nat)
    (images : List ImageDescriptor) (s : SoundLibrary) (name : String) (e : MusicEntry)
    (h : (loadImages canOpen k images s).music.find name = some e) :
    s.music.find name = some e ∨
      ∃ i d md, images[i]? = some d ∧ md ∈ d.music ∧ md.name = name ∧
        e = ⟨md.track, k + i⟩ := by
  induction images generalizing k s with
  | nil => exact Or.inl h
  | cons d rest ih =>
    rcases ih (k + 1) _ h with h1 | ⟨i, d2, md, hi, hmem, hn, he⟩
    · rcases loadMusic_find k d.music s.music name e h1 with h2 | ⟨md, hmem, hn, he⟩
      · exact Or.inl h2
      · exact Or.inr ⟨0, d, md, by simp, hmem, hn, by simpa using he⟩
    · refine Or.inr ⟨i + 1, d2, md, by simpa using hi, hmem, hn, ?_⟩
      rw [he]
      congr 1
      omega

theorem loadImages_samples_find (canOpen : String → Bool) (k : Nat)
    (images : List ImageDescriptor) (s : SoundLibrary) (name : String) (e : SampleEntry)
    (h : (loadImages canOpen k images s).samples.find name = some e) :
    s.samples.find name = some e ∨
      ∃ i d sd, images[i]? = some d ∧ sd ∈ d.samples ∧ sd.name = name ∧
        e = ⟨sd.track, sd.priority, k + i⟩ := by
  induction images generalizing k s with
  | nil => exact Or.inl h
  | cons d rest ih =>
    rcases ih (k + 1) _ h with h1 | ⟨i, d2, sd, hi, hmem, hn, he⟩
    · rcases loadSamples_find k d.samples s.samples name e h1 with h2 | ⟨sd, hmem, hn, he⟩
      · exact Or.inl h2
      · exact Or.inr ⟨0, d, sd, by simp, hmem, hn, by simpa using he⟩
    · refine Or.inr ⟨i + 1, d2, sd, by simpa using hi, hmem, hn, ?_⟩
      rw [he]
      congr 1
      omega

theorem load_order_aux (file : String) (canOpen : String → Bool)
    (images : List ImageDescriptor) :
    (∀ name e, (create file canOpen (some images)).music.find name = some e →
        ∃ i d md, images[i]? = some d ∧ md ∈ d.music ∧ md.name = name ∧
          e.track = md.track ∧ e.samplerId = i) ∧
      (∀ name e, (create file canOpen (some images)).samples.find name = some e →
        ∃ i d sd, images[i]? = some d ∧ sd ∈ d.samples ∧ sd.name = name ∧
          e.track = sd.track ∧ e.priority = sd.priority ∧ e.samplerId = i) := by
  refine ⟨?_, ?_⟩
  · intro name e h
    have h2 : (loadImages canOpen 0 images (initial file)).music.find name = some e := h
    rcases loadImages_music_find canOpen 0 images _ name e h2 with h3 | ⟨i, d, md, hi, hm, hn, he⟩
    · simp [initial, Catalog.empty, Catalog.find, Catalog.findIn] at h3
    · exact ⟨i, d, md, hi, hm, hn, by simp [he], by simp [he]⟩
  · intro name e h
    have h2 : (loadImages canOpen 0 images (initial file)).samples.find name = some e := h
    rcases loadImages_samples_find canOpen 0 images _ name e h2 with
      h3 | ⟨i, d, sd, hi, hm, hn, he⟩
    · simp [initial, Catalog.empty, Catalog.find, Catalog.findIn] at h3
    · exact ⟨i, d, sd, hi, hm, hn, by simp [he], by simp [he], by simp [he]⟩

/-- C8. Load ordering: for every parsed manifest, the pool built by the constructor is the
list of pairs opened from the image descriptors, one per descriptor and in manifest order;
every entry of the music catalog has the track of a music descriptor of that name and as
`samplerId` the position of the image descriptor containing it, and every entry of the sample
catalog has the track and priority of a sample descriptor of that name and the position of its
image. In the scenario `[A, B]`: "theme" maps to (samplerId 0, track 0), "hit" to (samplerId 1,
track 2, priority 5); `playMusic("theme")` returns the music stream of slot 0, Playing on
track 0, and `playSample("hit")` returns the sample stream of slot 1, Playing on track 2. -/
theorem load_ordering (file : String) (canOpen : String → Bool)
    (images : List ImageDescriptor) :
    ((create file canOpen (some images)).samplers =
        images.map (fun d => openSamplerPair canOpen d.file) ∧
      (∀ name e, (create file canOpen (some images)).music.find name = some e →
        ∃ i d md, images[i]? = some d ∧ md ∈ d.music ∧ md.name = name ∧
          e.track = md.track ∧ e.samplerId = i) ∧
      (∀ name e, (create file canOpen (some images)).samples.find name = some e →
        ∃ i d sd, images[i]? = some d ∧ sd ∈ d.samples ∧ sd.name = name ∧
          e.track = sd.track ∧ e.priority = sd.priority ∧ e.samplerId = i)) ∧
    (twoImages.music.find "theme" = some ⟨0, 0⟩ ∧
      twoImages.samples.find "hit" = some ⟨2, 5, 1⟩ ∧
      (twoImages.playMusic "theme").result = Except.ok (some ⟨0, Channel.music⟩) ∧
      streamAt (twoImages.playMusic "theme").state.samplers 0 Channel.music =
        some ⟨Status.Playing, 0, "a.nsf", true⟩ ∧
      ((twoImages.playMusic "theme").state.playSample "hit").result =
        Except.ok (some ⟨1, Channel.sample⟩) ∧
      streamAt ((twoImages.playMusic "theme").state.playSample "hit").state.samplers 1
        Channel.sample = some ⟨Status.Playing, 2, "b.nsf", true⟩) := by
  refine ⟨⟨?_, (load_order_aux file canOpen images).1, (load_order_aux file canOpen images).2⟩,
    by decide, by decide, rfl, by decide, rfl, by decide⟩
  simp [create, loadLibrary, loadImages_samplers, initial]

theorem load_ordering_witness :
    ∃ i d md, [imageA, imageB][i]? = some d ∧ md ∈ d.music ∧ md.name = "theme" ∧
      (0 : Nat) = md.track ∧ (0 : Nat) = i :=
  (load_ordering "sounds.json" (fun _ => true) [imageA, imageB]).1.2.1 "theme" ⟨0, 0⟩
    (by decide)

end hikari

namespace hikari
open SoundLibrary

/-! ## Claims C4 and C5: mutual exclusion -/

theorem countP_le_one_of_unique {α : Type} (q : α → Bool) (l : List α) (k : Nat)
    (h : ∀ j x, j ≠ k → l[j]? = some x → q x = false) : l.countP q ≤ 1 := by
  induction l generalizing k with
  | nil => simp
  | cons a l ih =>
    cases k with
    | zero =>
      have hz : l.countP q = 0 := by
        rw [List.countP_eq_zero]
        intro x hx
        obtain ⟨j, hj⟩ := List.getElem?_of_mem hx
        have := h (j + 1) x (by omega) (by simpa using hj)
        simp [this]
      rw [List.countP_cons, hz]
      split <;> omega
    | succ k =>
      have ha : q a = false := h 0 a (by omega) (by simp)
      have := ih k (fun j x hj hx => h (j + 1) x (by omega) (by simpa using hx))
      rw [List.countP_cons, ha]
      simpa using this

theorem isPlaying_eq_false_iff (ch : Channel) (p : SamplerPair) :
    SamplerPair.isPlaying ch p = false ↔
      ∀ st, p.stream ch = some st → st.getStatus ≠ Status.Playing := by
  unfold SamplerPair.isPlaying
  cases p.stream ch <;> simp

theorem playingCount_le_one_of (ch : Channel) (pool : List SamplerPair) (k : Nat)
    (h : ∀ j st, j ≠ k → streamAt pool j ch = some st → st.getStatus ≠ Status.Playing) :
    playingCount ch pool ≤ 1 := by
  apply countP_le_one_of_unique _ _ k
  intro j p hj hp
  rw [isPlaying_eq_false_iff]
  intro st hst
  exact h j st hj (by simp [streamAt, hp, hst])

theorem playingCount_eq_zero_of (ch : Channel) (pool : List SamplerPair)
    (h : ∀ j st, streamAt pool j ch = some st → st.getStatus ≠ Status.Playing) :
    playingCount ch pool = 0 := by
  unfold playingCount
  rw [List.countP_eq_zero]
  intro p hp
  obtain ⟨j, hj⟩ := List.getElem?_of_mem hp
  have := (isPlaying_eq_false_iff ch p).mpr (fun st hst => h j st (by simp [streamAt, hj, hst]))
  simp [this]

theorem streamAt_isSome_of_present {s : SoundLibrary} (hC : Consistent s) {j : Nat}
    (ch : Channel) (hj : j < s.samplers.length) : ∃ st, streamAt s.samplers j ch = some st :=
  Option.isSome_iff_exists.mp (hC.present j ch hj)

/-- Under consistency `playMusic` either finds nothing and changes nothing, or stops all
music streams and starts the one of the entry. -/
theorem playMusic_cases (s : SoundLibrary) (hC : Consistent s) (name : String) :
    (s.music.find name = none ∧ s.playMusic name = ⟨Except.ok none, s, []⟩) ∨
    ∃ e tgt pool, s.music.find name = some e ∧
      streamAt s.samplers e.samplerId Channel.music = some tgt ∧
      s.playMusic name =
        ⟨Except.ok (some ⟨e.samplerId, Channel.music⟩), { s with samplers := pool },
          s.stopMusic.2 ++ [⟨e.samplerId, Channel.music, Call.setCurrentTrack e.track⟩,
            ⟨e.samplerId, Channel.music, Call.play⟩]⟩ ∧
      replay [⟨e.samplerId, Channel.music, Call.setCurrentTrack e.track⟩,
        ⟨e.samplerId, Channel.music, Call.play⟩] s.stopMusic.1.samplers = pool ∧
      pool.length = s.samplers.length ∧
      ∀ j ch, streamAt pool j ch =
        if j = e.samplerId ∧ ch = Channel.music then
          some (tgt.stop.setCurrentTrack e.track).play
        else match ch with
          | Channel.music => (streamAt s.samplers j Channel.music).map NSFSoundStream.stop
          | Channel.sample => streamAt s.samplers j Channel.sample := by
  cases he : s.music.find name with
  | none => left; simp [playMusic, he]
  | some e =>
    right
    have hv := hC.music_valid name e he
    obtain ⟨tgt, htgt⟩ := streamAt_isSome_of_present hC Channel.music hv
    obtain ⟨pool, hrun, hrep, hlen, hst⟩ := startMusic_of_streamAt s e htgt
    refine ⟨e, tgt, pool, rfl, htgt, ?_, hrep, hlen, hst⟩
    have hsome : s.samplers[e.samplerId]? = some (s.samplers[e.samplerId]) :=
      List.getElem?_eq_getElem hv
    simp only [playMusic, he, hsome, hrun]

/-- Under consistency `playSample` either returns the empty pointer and changes nothing
(unknown name or rejected), or runs the approved path for the entry. -/
theorem playSample_cases (s : SoundLibrary) (hC : Consistent s) (name : String) :
    s.playSample name = ⟨Except.ok none, s, []⟩ ∨
    ∃ e tgt, s.samples.find name = some e ∧
      streamAt s.samplers e.samplerId Channel.sample = some tgt ∧
      s.playSample name = playApproved s e := by
  cases he : s.samples.find name with
  | none => left; simp [playSample, he]
  | some e =>
    have hv := hC.samples_valid name e he
    obtain ⟨tgt, htgt⟩ := streamAt_isSome_of_present hC Channel.sample hv
    cases hc : s.currentlyPlayingSample with
    | none =>
      exact Or.inr ⟨e, tgt, rfl, htgt,
        playSample_eq_playApproved_of_none s name e tgt hc he htgt⟩
    | some c =>
      have hcv := hC.current_valid c hc
      obtain ⟨st, hst⟩ := streamAt_isSome_of_present hC Channel.sample hcv
      by_cases hrej : st.getStatus = Status.Playing ∧ e.priority < c.priority
      · left
        have := playSample_eq_rejected s name c e st hc hst hrej.1 he hv hrej.2
        exact this
      · right
        refine ⟨e, tgt, rfl, htgt,
          playSample_eq_playApproved_of_le s name c e st tgt hc hst he htgt ?_⟩
        intro hp
        by_contra hlt
        exact hrej ⟨hp, Nat.lt_of_not_le hlt⟩

end hikari

namespace hikari
open SoundLibrary

theorem create_samplers (file : String) (canOpen : String → Bool)
    (root : Option (List ImageDescriptor)) :
    (create file canOpen root).samplers =
      (root.getD []).map (fun d => openSamplerPair canOpen d.file) := by
  cases root with
  | none => rfl
  | some images => simp [create, loadLibrary, loadImages_samplers, initial]

theorem streamAt_create (file : String) (canOpen : String → Bool)
    (root : Option (List ImageDescriptor)) (j : Nat) (ch : Channel) :
    streamAt (create file canOpen root).samplers j ch =
      ((root.getD [])[j]?).map
        (fun d => NSFSoundStream.fresh.openImage d.file (canOpen d.file)) := by
  rw [create_samplers]
  unfold streamAt
  rw [List.getElem?_map]
  cases (root.getD [])[j]? <;> cases ch <;> simp [openSamplerPair, SamplerPair.stream]

theorem consistent_create (file : String) (canOpen : String → Bool)
    (root : Option (List ImageDescriptor)) : Consistent (create file canOpen root) := by
  have hlen : (create file canOpen root).samplers.length = (root.getD []).length := by
    rw [create_samplers]; simp
  refine ⟨?_, ?_, ?_, ?_⟩
  · intro name e h
    cases root with
    | none => simp [create, loadLibrary, initial, Catalog.empty, Catalog.find,
        Catalog.findIn] at h
    | some images =>
      obtain ⟨i, d, md, hi, -, -, -, hid⟩ := (load_order_aux file canOpen images).1 name e h
      rw [hlen, hid]
      by_contra hlt
      rw [List.getElem?_eq_none (Nat.le_of_not_lt (by simpa using hlt))] at hi
      simp at hi
  · intro name e h
    cases root with
    | none => simp [create, loadLibrary, initial, Catalog.empty, Catalog.find,
        Catalog.findIn] at h
    | some images =>
      obtain ⟨i, d, sd, hi, -, -, -, -, hid⟩ := (load_order_aux file canOpen images).2 name e h
      rw [hlen, hid]
      by_contra hlt
      rw [List.getElem?_eq_none (Nat.le_of_not_lt (by simpa using hlt))] at hi
      simp at hi
  · intro c h
    cases root with
    | none => simp [create, loadLibrary, initial] at h
    | some images => simp [create, loadLibrary, loadImages_current, initial] at h
  · intro j ch hj
    rw [streamAt_create]
    rw [hlen] at hj
    simp [List.getElem?_eq_getElem hj]

theorem playingCount_create (file : String) (canOpen : String → Bool)
    (root : Option (List ImageDescriptor)) (ch : Channel) :
    playingCount ch (create file canOpen root).samplers = 0 := by
  apply playingCount_eq_zero_of
  intro j st h
  rw [streamAt_create] at h
  cases hd : (root.getD [])[j]? with
  | none => simp [hd] at h
  | some d =>
    simp [hd] at h
    subst h
    simp [NSFSoundStream.getStatus, NSFSoundStream.openImage, NSFSoundStream.fresh]

theorem consistent_of_streams (s : SoundLibrary) (hC : Consistent s) (pool : List SamplerPair)
    (cur : Option SampleEntry) (hlen : pool.length = s.samplers.length)
    (hcur : ∀ c, cur = some c → c.samplerId < s.samplers.length)
    (hpres : ∀ j ch, (streamAt s.samplers j ch).isSome = true →
      (streamAt pool j ch).isSome = true) :
    Consistent { s with samplers := pool, currentlyPlayingSample := cur } := by
  refine ⟨?_, ?_, ?_, ?_⟩
  · intro name e h; simpa [hlen] using hC.music_valid name e h
  · intro name e h; simpa [hlen] using hC.samples_valid name e h
  · intro c h; simpa [hlen] using hcur c h
  · intro j ch hj
    exact hpres j ch (hC.present j ch (by simpa [hlen] using hj))

theorem playMusic_consistent (s : SoundLibrary) (hC : Consistent s) (name : String) :
    Consistent (s.playMusic name).state ∧
      playingCount Channel.music (s.playMusic name).state.samplers ≤
        max 1 (playingCount Channel.music s.samplers) ∧
      ∃ h, (s.playMusic name).result = Except.ok h := by
  rcases playMusic_cases s hC name with ⟨-, hrun⟩ | ⟨e, tgt, pool, -, htgt, hrun, -, hlen, hst⟩
  · rw [hrun]; exact ⟨hC, by simp, _, rfl⟩
  · rw [hrun]
    refine ⟨?_, ?_, _, rfl⟩
    · apply consistent_of_streams s hC pool s.currentlyPlayingSample hlen hC.current_valid
      intro j ch hj
      rw [hst]
      split
      · rfl
      · cases ch <;> simpa using hj
    · have : playingCount Channel.music pool ≤ 1 := by
        apply playingCount_le_one_of _ _ e.samplerId
        intro j st hj hs
        rw [hst] at hs
        simp only [hj, false_and, if_false] at hs
        cases hsrc : streamAt s.samplers j Channel.music with
        | none => simp [hsrc] at hs
        | some src =>
          simp [hsrc] at hs
          subst hs
          simp [NSFSoundStream.getStatus, NSFSoundStream.stop]
      exact le_trans this (le_max_left _ _)

theorem playSample_consistent (s : SoundLibrary) (hC : Consistent s) (name : String) :
    Consistent (s.playSample name).state ∧
      playingCount Channel.sample (s.playSample name).state.samplers ≤
        max 1 (playingCount Channel.sample s.samplers) ∧
      ∃ h, (s.playSample name).result = Except.ok h := by
  rcases playSample_cases s hC name with hrun | ⟨e, tgt, he, htgt, hrun⟩
  · rw [hrun]; exact ⟨hC, by simp, _, rfl⟩
  · obtain ⟨pool, hrun2, -, hlen, hst⟩ := playApproved_of_streamAt s e htgt
    rw [hrun, hrun2]
    refine ⟨?_, ?_, _, rfl⟩
    · apply consistent_of_streams s hC pool (some e) hlen
      · intro c hc
        have : e = c := by simpa using hc
        subst this
        exact hC.samples_valid name e he
      · intro j ch hj
        rw [hst]
        split
        · rfl
        · cases ch <;> simpa using hj
    · have : playingCount Channel.sample pool ≤ 1 := by
        apply playingCount_le_one_of _ _ e.samplerId
        intro j st hj hs
        rw [hst] at hs
        simp only [hj, false_and, if_false] at hs
        cases hsrc : streamAt s.samplers j Channel.sample with
        | none => simp [hsrc] at hs
        | some src =>
          simp [hsrc] at hs
          subst hs
          simp [NSFSoundStream.getStatus, NSFSoundStream.stop]
      exact le_trans this (le_max_left _ _)

theorem playMusicSeq_invariant (s : SoundLibrary) (names : List String) (hC : Consistent s)
    (h1 : playingCount Channel.music s.samplers ≤ 1) :
    Consistent (playMusicSeq s names) ∧
      playingCount Channel.music (playMusicSeq s names).samplers ≤ 1 := by
  induction names generalizing s with
  | nil => exact ⟨hC, h1⟩
  | cons name rest ih =>
    obtain ⟨hC2, hcount, -⟩ := playMusic_consistent s hC name
    exact ih _ hC2 (le_trans hcount (by simp [h1]))

theorem playSampleSeq_invariant (s : SoundLibrary) (names : List String) (hC : Consistent s)
    (h1 : playingCount Channel.sample s.samplers ≤ 1) :
    Consistent (playSampleSeq s names) ∧
      playingCount Channel.sample (playSampleSeq s names).samplers ≤ 1 := by
  induction names generalizing s with
  | nil => exact ⟨hC, h1⟩
  | cons name rest ih =>
    obtain ⟨hC2, hcount, -⟩ := playSample_consistent s hC name
    exact ih _ hC2 (le_trans hcount (by simp [h1]))

/-- C4. Music mutual exclusion: in the library the constructor builds from any manifest (parsed
or not), after every prefix of any sequence of `playMusic` calls with arbitrary names at most
one music stream of the pool reports Playing; and the next call, whatever its name, returns
(a stream or the empty pointer) without failing. -/
theorem music_mutual_exclusion (file : String) (canOpen : String → Bool)
    (root : Option (List ImageDescriptor)) (names : List String) (k : Nat) :
    playingCount Channel.music
        (playMusicSeq (create file canOpen root) (names.take k)).samplers ≤ 1 ∧
      ∀ name, ∃ h,
        ((playMusicSeq (create file canOpen root) (names.take k)).playMusic name).result =
          Except.ok h := by
  obtain ⟨hC, hcount⟩ := playMusicSeq_invariant (create file canOpen root) (names.take k)
    (consistent_create file canOpen root) (by rw [playingCount_create]; omega)
  exact ⟨hcount, fun name => (playMusic_consistent _ hC name).2.2⟩

/-- C5. Sample mutual exclusion: in the library the constructor builds from any manifest
(parsed or not), after every prefix of any sequence of `playSample` calls with arbitrary
names, whether arbitration accepts or rejects them, at most one sample stream of the pool
reports Playing; and the next call, whatever its name, returns without failing. -/
theorem sample_mutual_exclusion (file : String) (canOpen : String → Bool)
    (root : Option (List ImageDescriptor)) (names : List String) (k : Nat) :
    playingCount Channel.sample
        (playSampleSeq (create file canOpen root) (names.take k)).samplers ≤ 1 ∧
      ∀ name, ∃ h,
        ((playSampleSeq (create file canOpen root) (names.take k)).playSample name).result =
          Except.ok h := by
  obtain ⟨hC, hcount⟩ := playSampleSeq_invariant (create file canOpen root) (names.take k)
    (consistent_create file canOpen root) (by rw [playingCount_create]; omega)
  exact ⟨hcount, fun name => (playSample_consistent _ hC name).2.2⟩

end hikari

namespace hikari
open SoundLibrary

/-! ## Claim C10: order of the commands of one call -/

theorem replay_append (a b : List Command) (pool : List SamplerPair) :
    replay (a ++ b) pool = replay b (replay a pool) := by
  induction a generalizing pool with
  | nil => rfl
  | cons c rest ih => simp [replay, ih]

theorem perform_at_split (pre : List SamplerPair) (p : SamplerPair) (ps : List SamplerPair)
    (ch : Channel) (call : Call) (st : NSFSoundStream) (h : p.stream ch = some st) :
    perform ⟨pre.length, ch, call⟩ (pre ++ p :: ps) =
      some (pre ++ p.withStream ch (call.run st) :: ps) := by
  have hget : (pre ++ p :: ps)[pre.length]? = some p := by
    rw [List.getElem?_append_right (Nat.le_refl _)]
    simp
  simp only [perform, hget, h]
  simp

theorem replay_stopMusicFrom (pre pool : List SamplerPair) :
    replay (stopMusicFrom pre.length pool).2 (pre ++ pool) =
      pre ++ pool.map SamplerPair.haltMusic := by
  induction pool generalizing pre with
  | nil => simp [stopMusicFrom, replay]
  | cons p ps ih =>
    have hlen : (pre ++ [p.haltMusic]).length = pre.length + 1 := by simp
    have step := ih (pre ++ [p.haltMusic])
    rw [hlen] at step
    cases hp : p.musicStream with
    | none =>
      have hh : p.haltMusic = p := by cases p; simp_all [SamplerPair.haltMusic]
      rw [hh] at step
      simpa [stopMusicFrom, hp, hh] using step
    | some m =>
      have hh : p.haltMusic = p.withStream Channel.music (Call.stop.run m) := by
        simp [SamplerPair.haltMusic, SamplerPair.withStream, hp, Call.run]
      have hperf := perform_at_split pre p ps Channel.music Call.stop m hp
      simp only [stopMusicFrom, hp, replay, hperf, Option.getD_some, ← hh]
      simpa using step

theorem replay_stopSampleFrom (pre pool : List SamplerPair) :
    replay (stopSampleFrom pre.length pool).2 (pre ++ pool) =
      pre ++ pool.map SamplerPair.haltSample := by
  induction pool generalizing pre with
  | nil => simp [stopSampleFrom, replay]
  | cons p ps ih =>
    have hlen : (pre ++ [p.haltSample]).length = pre.length + 1 := by simp
    have step := ih (pre ++ [p.haltSample])
    rw [hlen] at step
    cases hp : p.sampleStream with
    | none =>
      have hh : p.haltSample = p := by cases p; simp_all [SamplerPair.haltSample]
      rw [hh] at step
      simpa [stopSampleFrom, hp, hh] using step
    | some m =>
      have h1 : p.withStream Channel.sample (Call.stopAllSamplers.run m) = p := by
        cases p; simp_all [SamplerPair.withStream, Call.run, NSFSoundStream.stopAllSamplers]
      have hh : p.haltSample = p.withStream Channel.sample (Call.stop.run m) := by
        simp [SamplerPair.haltSample, SamplerPair.withStream, hp, Call.run,
          NSFSoundStream.stopAllSamplers]
      have hperf1 := perform_at_split pre p ps Channel.sample Call.stopAllSamplers m hp
      have hperf2 := perform_at_split pre p ps Channel.sample Call.stop m hp
      rw [h1] at hperf1
      simp only [stopSampleFrom, hp, replay, hperf1, hperf2, Option.getD_some, ← hh]
      simpa using step

theorem stopMusicFrom_calls (i : Nat) (pool : List SamplerPair) :
    ∀ c ∈ (stopMusicFrom i pool).2, c.channel = Channel.music ∧ c.call = Call.stop := by
  induction pool generalizing i with
  | nil => simp [stopMusicFrom]
  | cons p ps ih =>
    intro c hc
    cases hp : p.musicStream with
    | none => simp [stopMusicFrom, hp] at hc; exact ih _ c hc
    | some m =>
      simp [stopMusicFrom, hp] at hc
      rcases hc with rfl | hc
      · exact ⟨rfl, rfl⟩
      · exact ih _ c hc

theorem stopSampleFrom_calls (i : Nat) (pool : List SamplerPair) :
    ∀ c ∈ (stopSampleFrom i pool).2,
      c.channel = Channel.sample ∧ (c.call = Call.stopAllSamplers ∨ c.call = Call.stop) := by
  induction pool generalizing i with
  | nil => simp [stopSampleFrom]
  | cons p ps ih =>
    intro c hc
    cases hp : p.sampleStream with
    | none => simp [stopSampleFrom, hp] at hc; exact ih _ c hc
    | some m =>
      simp [stopSampleFrom, hp] at hc
      rcases hc with rfl | rfl | hc
      · exact ⟨rfl, Or.inl rfl⟩
      · exact ⟨rfl, Or.inr rfl⟩
      · exact ih _ c hc

theorem countP_set_le {α : Type} (q : α → Bool) (l : List α) (i : Nat) (x y : α)
    (hy : l[i]? = some y) (h : q x = true → q y = true) :
    (l.set i x).countP q ≤ l.countP q := by
  induction l generalizing i with
  | nil => simp
  | cons a l ih =>
    cases i with
    | zero =>
      have ha : a = y := by simpa using hy
      subst ha
      simp only [List.set_cons_zero, List.countP_cons]
      have : (if q x = true then 1 else 0) ≤ (if q a = true then 1 else 0) := by
        by_cases hx : q x = true
        · simp [hx, h hx]
        · simp [hx]
      omega
    | succ i =>
      have := ih i (by simpa using hy)
      simp only [List.set_cons_succ, List.countP_cons]
      omega

theorem perform_count_le (ch : Channel) (c : Command) (pool : List SamplerPair)
    (hc : c.call ≠ Call.play) :
    playingCount ch ((perform c pool).getD pool) ≤ playingCount ch pool := by
  unfold perform
  cases hp : pool[c.slot]? with
  | none => simp
  | some p =>
    cases hs : p.stream c.channel with
    | none => simp [hs]
    | some st =>
      simp only [hs, Option.getD_some]
      apply countP_set_le _ _ _ _ p hp
      intro hplay
      have hstatus : (c.call.run st).getStatus = Status.Playing → st.getStatus = Status.Playing := by
        cases hcall : c.call with
        | play => exact absurd hcall hc
        | stop => simp [Call.run, NSFSoundStream.stop, NSFSoundStream.getStatus]
        | stopAllSamplers => simp [Call.run, NSFSoundStream.stopAllSamplers]
        | setCurrentTrack t => simp [Call.run, NSFSoundStream.setCurrentTrack,
            NSFSoundStream.getStatus]
      revert hplay
      cases ch <;> cases hch : c.channel <;>
        simp_all [SamplerPair.isPlaying, SamplerPair.withStream, SamplerPair.stream]

theorem replay_count_le (ch : Channel) (cmds : List Command) (pool : List SamplerPair)
    (h : ∀ c ∈ cmds, c.call ≠ Call.play) :
    playingCount ch (replay cmds pool) ≤ playingCount ch pool := by
  induction cmds generalizing pool with
  | nil => simp [replay]
  | cons c rest ih =>
    have h1 := perform_count_le ch c pool (h c (List.mem_cons_self _ _))
    have h2 := ih ((perform c pool).getD pool) (fun d hd => h d (List.mem_cons_of_mem _ hd))
    simp only [replay]
    omega

/-- Every proper prefix of a trace `stops ++ [select, start]` whose commands before `start`
are not `play` keeps the number of playing streams at or below what it was. -/
theorem prefix_count_le (ch : Channel) (stops : List Command) (sel start : Command)
    (pool : List SamplerPair) (hstops : ∀ c ∈ stops, c.call ≠ Call.play)
    (hsel : sel.call ≠ Call.play) (k : Nat) (hk : k ≤ stops.length + 1) :
    playingCount ch (replay ((stops ++ [sel, start]).take k) pool) ≤ playingCount ch pool := by
  have e : stops ++ [sel, start] = (stops ++ [sel]) ++ [start] := by simp
  rw [e, List.take_append_of_le_length (by simpa using hk)]
  apply replay_count_le
  intro c hc
  have := List.mem_of_mem_take hc
  rcases List.mem_append.mp this with h1 | h1
  · exact hstops c h1
  · have : c = sel := by simpa using h1
    rw [this]; exact hsel

end hikari

namespace hikari
open SoundLibrary

theorem playApproved_of_absent (s : SoundLibrary) (e : SampleEntry)
    (h : streamAt s.samplers e.samplerId Channel.sample = none) :
    (playApproved s e).result = Except.error Failure.nullStream := by
  have h1 : streamAt s.stopSample.1.samplers e.samplerId Channel.sample = none := by
    rw [stopSample_samplers, streamAt_haltSample]; simp [h]
  simp [playApproved, startStream_of_absent _ _ _ _ h1]

/-- A `playMusic` call that returns a stream found an entry whose pair has a music stream. -/
theorem playMusic_success (s : SoundLibrary) (name : String) (h : Handle)
    (hres : (s.playMusic name).result = Except.ok (some h)) :
    ∃ e tgt, s.music.find name = some e ∧
      streamAt s.samplers e.samplerId Channel.music = some tgt := by
  cases he : s.music.find name with
  | none => simp [playMusic, he] at hres
  | some e =>
    cases hp : s.samplers[e.samplerId]? with
    | none => simp [playMusic, he, hp] at hres
    | some p =>
      cases hst : streamAt s.samplers e.samplerId Channel.music with
      | some tgt => exact ⟨e, tgt, rfl, hst⟩
      | none =>
        have h1 : streamAt s.stopMusic.1.samplers e.samplerId Channel.music = none := by
          rw [stopMusic_samplers, streamAt_haltMusic]; simp [hst]
        simp [playMusic, he, hp, startStream_of_absent _ _ _ _ h1] at hres

/-- A `playSample` call that returns a stream found an entry whose pair has a sample stream,
and ran the approved path for it. -/
theorem playSample_success (s : SoundLibrary) (name : String) (h : Handle)
    (hres : (s.playSample name).result = Except.ok (some h)) :
    ∃ e tgt, s.samples.find name = some e ∧
      streamAt s.samplers e.samplerId Channel.sample = some tgt ∧
      s.playSample name = playApproved s e := by
  cases he : s.samples.find name with
  | none => simp [playSample, he] at hres
  | some e =>
    cases hp : s.samplers[e.samplerId]? with
    | none => simp [playSample, he, hp] at hres
    | some p =>
      have key : s.playSample name = playApproved s e := by
        cases hc : s.currentlyPlayingSample with
        | none => simp only [playSample, he, hp, hc]
        | some c =>
          cases hcp : s.samplers[c.samplerId]? with
          | none => simp [playSample, he, hp, hc, hcp] at hres
          | some cp =>
            cases hcs : cp.sampleStream with
            | none => simp [playSample, he, hp, hc, hcp, hcs] at hres
            | some st =>
              by_cases h1 : st.getStatus = Status.Playing
              · by_cases h2 : e.priority < c.priority
                · simp [playSample, he, hp, hc, hcp, hcs, h1, h2] at hres
                · simp only [playSample, he, hp, hc, hcp, hcs, h1, h2, if_true, if_false]
              · simp only [playSample, he, hp, hc, hcp, hcs, h1, if_false]
      cases hst : streamAt s.samplers e.samplerId Channel.sample with
      | some tgt => exact ⟨e, tgt, rfl, hst, key⟩
      | none =>
        rw [key, playApproved_of_absent s e hst] at hres
        simp at hres

/-- C10. Stop-before-play ordering. When `playMusic` returns a stream, the commands it issued
are: stops on the music channel only, one for every music stream of the pool, followed by one
`setCurrentTrack` and then the single `play`, both on the returned stream; replaying these
commands on the pool before the call gives the pool after the call; and if at most one music
stream was playing before the call, at most one is playing after every prefix of the commands.
The same holds for a `playSample` that returns a stream, with `stopAllSamplers` and `stop` on
the sample channel as the commands of the broadcast. -/
theorem stop_before_play (s : SoundLibrary) (name : String) (h : Handle) :
    ((s.playMusic name).result = Except.ok (some h) →
      ∃ e stops, s.music.find name = some e ∧ h = ⟨e.samplerId, Channel.music⟩ ∧
        (s.playMusic name).trace =
          stops ++ [⟨e.samplerId, Channel.music, Call.setCurrentTrack e.track⟩,
            ⟨e.samplerId, Channel.music, Call.play⟩] ∧
        (∀ c ∈ stops, c.channel = Channel.music ∧ c.call = Call.stop) ∧
        (∀ j src, streamAt s.samplers j Channel.music = some src →
          (⟨j, Channel.music, Call.stop⟩ : Command) ∈ stops) ∧
        replay (s.playMusic name).trace s.samplers = (s.playMusic name).state.samplers ∧
        (playingCount Channel.music s.samplers ≤ 1 → ∀ k,
          playingCount Channel.music
            (replay ((s.playMusic name).trace.take k) s.samplers) ≤ 1)) ∧
    ((s.playSample name).result = Except.ok (some h) →
      ∃ e stops, s.samples.find name = some e ∧ h = ⟨e.samplerId, Channel.sample⟩ ∧
        (s.playSample name).trace =
          stops ++ [⟨e.samplerId, Channel.sample, Call.setCurrentTrack e.track⟩,
            ⟨e.samplerId, Channel.sample, Call.play⟩] ∧
        (∀ c ∈ stops, c.channel = Channel.sample ∧
          (c.call = Call.stopAllSamplers ∨ c.call = Call.stop)) ∧
        (∀ j src, streamAt s.samplers j Channel.sample = some src →
          (⟨j, Channel.sample, Call.stop⟩ : Command) ∈ stops) ∧
        replay (s.playSample name).trace s.samplers = (s.playSample name).state.samplers ∧
        (playingCount Channel.sample s.samplers ≤ 1 → ∀ k,
          playingCount Channel.sample
            (replay ((s.playSample name).trace.take k) s.samplers) ≤ 1)) := by
  constructor
  · intro hres
    obtain ⟨e, tgt, he, htgt⟩ := playMusic_success s name h hres
    obtain ⟨tp, htp, -⟩ := getElem?_of_streamAt htgt
    obtain ⟨pool, hrun, hrep, -, hst⟩ := startMusic_of_streamAt s e htgt
    have hplay : s.playMusic name =
        startStream s.stopMusic e.samplerId Channel.music e.track := by
      simp only [playMusic, he, htp]
    rw [hrun] at hplay
    have hstops : replay s.stopMusic.2 s.samplers = s.stopMusic.1.samplers := by
      have := replay_stopMusicFrom [] s.samplers
      simpa [stopMusic, stopMusicFrom_fst] using this
    have hfull : replay (s.playMusic name).trace s.samplers = pool := by
      rw [hplay, replay_append, hstops, hrep]
    have hfinal : playingCount Channel.music pool ≤ 1 := by
      apply playingCount_le_one_of _ _ e.samplerId
      intro j st hj hs
      rw [hst] at hs
      simp only [hj, false_and, if_false] at hs
      cases hsrc : streamAt s.samplers j Channel.music with
      | none => simp [hsrc] at hs
      | some src =>
        simp [hsrc] at hs
        subst hs
        simp [NSFSoundStream.getStatus, NSFSoundStream.stop]
    have hcalls := stopMusicFrom_calls 0 s.samplers
    refine ⟨e, s.stopMusic.2, he, ?_, ?_, hcalls, ?_, ?_, ?_⟩
    · rw [hplay] at hres
      simpa using hres.symm
    · rw [hplay]
    · intro j src hsrc
      simpa [stopMusic] using stop_mem_stopMusicFrom 0 s.samplers j src hsrc
    · rw [hfull, hplay]
    · intro hone k
      by_cases hk : k ≤ s.stopMusic.2.length + 1
      · rw [hplay]
        refine le_trans (prefix_count_le Channel.music s.stopMusic.2 _ _ s.samplers ?_ ?_ k hk)
          hone
        · intro c hc
          rw [(hcalls c hc).2]
          simp
        · simp
      · have hlen : (s.playMusic name).trace.length ≤ k := by
          rw [hplay]; simp; omega
        rw [List.take_of_length_le hlen, hfull]
        exact hfinal
  · intro hres
    obtain ⟨e, tgt, he, htgt, hkey⟩ := playSample_success s name h hres
    obtain ⟨pool, hrun, hrep, -, hst⟩ := playApproved_of_streamAt s e htgt
    have hplay := hkey.trans hrun
    have hstops : replay s.stopSample.2 s.samplers = s.stopSample.1.samplers := by
      have := replay_stopSampleFrom [] s.samplers
      simpa [stopSample, stopSampleFrom_fst] using this
    have hfull : replay (s.playSample name).trace s.samplers = pool := by
      rw [hplay, replay_append, hstops, hrep]
    have hfinal : playingCount Channel.sample pool ≤ 1 := by
      apply playingCount_le_one_of _ _ e.samplerId
      intro j st hj hs
      rw [hst] at hs
      simp only [hj, false_and, if_false] at hs
      cases hsrc : streamAt s.samplers j Channel.sample with
      | none => simp [hsrc] at hs
      | some src =>
        simp [hsrc] at hs
        subst hs
        simp [NSFSoundStream.getStatus, NSFSoundStream.stop]
    have hcalls := stopSampleFrom_calls 0 s.samplers
    refine ⟨e, s.stopSample.2, he, ?_, ?_, hcalls, ?_, ?_, ?_⟩
    · rw [hplay] at hres
      simpa using hres.symm
    · rw [hplay]
    · intro j src hsrc
      simpa [stopSample] using (stop_mem_stopSampleFrom 0 s.samplers j src hsrc).2
    · rw [hfull, hplay]
    · intro hone k
      by_cases hk : k ≤ s.stopSample.2.length + 1
      · rw [hplay]
        refine le_trans (prefix_count_le Channel.sample s.stopSample.2 _ _ s.samplers ?_ ?_ k hk)
          hone
        · intro c hc
          rcases (hcalls c hc).2 with h1 | h1 <;> rw [h1] <;> simp
        · simp
      · have hlen : (s.playSample name).trace.length ≤ k := by
          rw [hplay]; simp; omega
        rw [List.take_of_length_le hlen, hfull]
        exact hfinal

end hikari

namespace hikari
open SoundLibrary

theorem stop_before_play_witness :
    playingCount Channel.music
        (replay ((twoImages.playMusic "theme").trace.take 3) twoImages.samplers) ≤ 1 ∧
      playingCount Channel.sample
        (replay ((hitPlaying.playSample "hit").trace.take 5) hitPlaying.samplers) ≤ 1 :=
  have ⟨_, _, _, _, _, _, _, _, hmusic⟩ :=
    (stop_before_play twoImages "theme" ⟨0, Channel.music⟩).1 rfl
  have ⟨_, _, _, _, _, _, _, _, hsample⟩ :=
    (stop_before_play hitPlaying "hit" ⟨1, Channel.sample⟩).2 rfl
  ⟨hmusic (by decide) 3, hsample (by decide) 5⟩

end hikari

namespace hikari
open SoundLibrary

/-! ## Claim C11: what playMusic leaves behind -/

/-- C11. Postcondition of `playMusic`: for a registered name whose entry `e` addresses a music
stream of the pool, the call returns the music stream of the pair at `e.samplerId`; afterwards
that stream is Playing on track `e.track` and every other music stream of the pool is Stopped,
whatever was playing before and in whichever slot. -/
theorem playMusic_postcondition (s : SoundLibrary) (name : String) (e : MusicEntry)
    (tgt : NSFSoundStream)
    (he : s.music.find name = some e)
    (htgt : streamAt s.samplers e.samplerId Channel.music = some tgt) :
    (s.playMusic name).result = Except.ok (some ⟨e.samplerId, Channel.music⟩) ∧
      streamAt (s.playMusic name).state.samplers e.samplerId Channel.music =
        some ⟨Status.Playing, e.track, tgt.image, tgt.opened⟩ ∧
      (∀ j other, j ≠ e.samplerId →
        streamAt (s.playMusic name).state.samplers j Channel.music = some other →
        other.getStatus = Status.Stopped) := by
  obtain ⟨tp, htp, -⟩ := getElem?_of_streamAt htgt
  obtain ⟨pool, hrun, -, -, hst⟩ := startMusic_of_streamAt s e htgt
  have hplay : s.playMusic name =
      startStream s.stopMusic e.samplerId Channel.music e.track := by
    simp only [playMusic, he, htp]
  rw [hplay, hrun]
  refine ⟨rfl, ?_, ?_⟩
  · simp only [hst]
    simp [NSFSoundStream.play, NSFSoundStream.setCurrentTrack, NSFSoundStream.stop]
  · intro j other hj hother
    simp only [hst] at hother
    simp only [hj, false_and, if_false] at hother
    cases hsrc : streamAt s.samplers j Channel.music with
    | none => simp [hsrc] at hother
    | some src =>
      simp [hsrc] at hother
      subst hother
      rfl

theorem playMusic_postcondition_witness :
    (hitPlaying.playMusic "theme").result = Except.ok (some ⟨0, Channel.music⟩) ∧
      streamAt (hitPlaying.playMusic "theme").state.samplers 0 Channel.music =
        some ⟨Status.Playing, 0, "a.nsf", true⟩ :=
  have h := playMusic_postcondition hitPlaying "theme" ⟨0, 0⟩
    ⟨Status.Stopped, 0, "a.nsf", true⟩ (by decide) (by decide)
  ⟨h.1, h.2.1⟩

/-! ## Frame of the calls on the pool -/

/-- What `startStream` does to the pool, whether or not the stream is there: only the stream
of channel `ch` at `slot` changes, to the selected track and Playing. -/
theorem startStream_pool (stopped : SoundLibrary × List Command) (slot : Nat) (ch : Channel)
    (track : Nat) :
    ∃ pool, (startStream stopped slot ch track).state = { stopped.1 with samplers := pool } ∧
      pool.length = stopped.1.samplers.length ∧
      ∀ j ch2, streamAt pool j ch2 =
        if j = slot ∧ ch2 = ch then
          (streamAt stopped.1.samplers j ch2).map (fun st => (st.setCurrentTrack track).play)
        else streamAt stopped.1.samplers j ch2 := by
  cases hst : streamAt stopped.1.samplers slot ch with
  | none =>
    refine ⟨stopped.1.samplers, ?_, rfl, ?_⟩
    · rw [startStream_of_absent _ _ _ _ hst]
    · intro j ch2
      by_cases hc : j = slot ∧ ch2 = ch
      · obtain ⟨rfl, rfl⟩ := hc
        simp [hst]
      · simp [hc]
  | some st =>
    obtain ⟨pool, hrun, -, hlen, hpool⟩ := startStream_of_streamAt stopped slot ch track hst
    refine ⟨pool, by rw [hrun], hlen, ?_⟩
    intro j ch2
    rw [hpool]
    by_cases hc : j = slot ∧ ch2 = ch
    · obtain ⟨rfl, rfl⟩ := hc
      simp [hst]
    · simp [hc]

/-- The trace of `startStream`: the broadcast, then at most the two calls on the stream. -/
theorem startStream_trace (stopped : SoundLibrary × List Command) (slot : Nat) (ch : Channel)
    (track : Nat) :
    ∃ tail, (startStream stopped slot ch track).trace = stopped.2 ++ tail ∧
      ∀ c ∈ tail, c.slot = slot ∧ c.channel = ch := by
  unfold startStream
  split
  · exact ⟨[], by simp, by simp⟩
  · split
    · exact ⟨[⟨slot, ch, Call.setCurrentTrack track⟩], rfl, by simp⟩
    · exact ⟨[⟨slot, ch, Call.setCurrentTrack track⟩, ⟨slot, ch, Call.play⟩], rfl, by simp⟩

/-- `playMusic` in any state: nothing changes, or the music streams are stopped and the one of
the entry, if it is there, is started; the sample streams stay as they are. -/
theorem playMusic_pool (s : SoundLibrary) (name : String) :
    (s.playMusic name).state = s ∨
    ∃ e pool, s.music.find name = some e ∧ e.samplerId < s.samplers.length ∧
      (s.playMusic name).state = { s with samplers := pool } ∧
      pool.length = s.samplers.length ∧
      ∀ j ch, streamAt pool j ch =
        match ch with
        | Channel.music =>
          if j = e.samplerId then
            (streamAt s.samplers j Channel.music).map
              (fun st => (st.stop.setCurrentTrack e.track).play)
          else (streamAt s.samplers j Channel.music).map NSFSoundStream.stop
        | Channel.sample => streamAt s.samplers j Channel.sample := by
  cases he : s.music.find name with
  | none => left; simp [playMusic, he]
  | some e =>
    cases hp : s.samplers[e.samplerId]? with
    | none => left; simp [playMusic, he, hp]
    | some p =>
      right
      have hlt : e.samplerId < s.samplers.length := by
        by_contra hlt
        rw [List.getElem?_eq_none (Nat.le_of_not_lt hlt)] at hp
        simp at hp
      obtain ⟨pool, hstate, hlen, hpool⟩ :=
        startStream_pool s.stopMusic e.samplerId Channel.music e.track
      refine ⟨e, pool, rfl, hlt, ?_, ?_, ?_⟩
      · simp only [playMusic, he, hp, hstate]
        simp [stopMusic]
      · rw [hlen, stopMusic_samplers]; simp
      · intro j ch
        rw [hpool, stopMusic_samplers, streamAt_haltMusic]
        cases ch
        · by_cases hj : j = e.samplerId
          · simp [hj]
            cases streamAt s.samplers e.samplerId Channel.music <;> simp
          · simp [hj]
        · simp

/-- The approved path of `playSample` in any state. -/
theorem playApproved_pool (s : SoundLibrary) (e : SampleEntry) :
    ∃ pool cur, (playApproved s e).state =
        { s with samplers := pool, currentlyPlayingSample := cur } ∧
      (cur = s.currentlyPlayingSample ∨ cur = some e) ∧
      pool.length = s.samplers.length ∧
      ∀ j ch, streamAt pool j ch =
        match ch with
        | Channel.music => streamAt s.samplers j Channel.music
        | Channel.sample =>
          if j = e.samplerId then
            (streamAt s.samplers j Channel.sample).map
              (fun st => (st.stop.setCurrentTrack e.track).play)
          else (streamAt s.samplers j Channel.sample).map NSFSoundStream.stop := by
  obtain ⟨pool, hstate, hlen, hpool⟩ :=
    startStream_pool s.stopSample e.samplerId Channel.sample e.track
  have hcur : ∃ cur, (playApproved s e).state =
      { s with samplers := pool, currentlyPlayingSample := cur } ∧
      (cur = s.currentlyPlayingSample ∨ cur = some e) := by
    unfold playApproved
    simp only
    split
    · refine ⟨some e, ?_, Or.inr rfl⟩
      dsimp only
      rw [hstate]
      rfl
    · refine ⟨s.currentlyPlayingSample, ?_, Or.inl rfl⟩
      rw [hstate]
      rfl
  obtain ⟨cur, hc1, hc2⟩ := hcur
  refine ⟨pool, cur, hc1, hc2, ?_, ?_⟩
  · rw [hlen, stopSample_samplers]; simp
  · intro j ch
    rw [hpool, stopSample_samplers, streamAt_haltSample]
    cases ch
    · simp
    · by_cases hj : j = e.samplerId
      · simp [hj]
        cases streamAt s.samplers e.samplerId Channel.sample <;> simp
      · simp [hj]

/-- The branches of `playSample` in any state: it changes nothing, or it runs the approved
path for an entry whose `samplerId` is an index of the pool. -/
theorem playSample_branches (s : SoundLibrary) (name : String) :
    ((s.playSample name).state = s ∧ (s.playSample name).trace = []) ∨
    ∃ e, s.samples.find name = some e ∧ e.samplerId < s.samplers.length ∧
      s.playSample name = playApproved s e := by
  cases he : s.samples.find name with
  | none => left; simp [playSample, he]
  | some e =>
    cases hp : s.samplers[e.samplerId]? with
    | none => left; simp [playSample, he, hp]
    | some p =>
      have hlt : e.samplerId < s.samplers.length := by
        by_contra hlt
        rw [List.getElem?_eq_none (Nat.le_of_not_lt hlt)] at hp
        simp at hp
      cases hc : s.currentlyPlayingSample with
      | none => right; exact ⟨e, rfl, hlt, by simp only [playSample, he, hp, hc]⟩
      | some c =>
        cases hcp : s.samplers[c.samplerId]? with
        | none => left; simp [playSample, he, hp, hc, hcp]
        | some cp =>
          cases hcs : cp.sampleStream with
          | none => left; simp [playSample, he, hp, hc, hcp, hcs]
          | some st =>
            by_cases h1 : st.getStatus = Status.Playing
            · by_cases h2 : e.priority < c.priority
              · left; simp [playSample, he, hp, hc, hcp, hcs, h1, h2]
              · right
                exact ⟨e, rfl, hlt,
                  by simp only [playSample, he, hp, hc, hcp, hcs, h1, h2, if_true, if_false]⟩
            · right
              exact ⟨e, rfl, hlt,
                by simp only [playSample, he, hp, hc, hcp, hcs, h1, if_false]⟩

end hikari

namespace hikari
open SoundLibrary

/-! ## Claim C12: stopping when nothing plays -/

theorem map_eq_self_of_mem {α : Type} (f : α → α) (l : List α)
    (h : ∀ x ∈ l, f x = x) : l.map f = l := by
  induction l with
  | nil => rfl
  | cons a l ih =>
    have ha : f a = a := h a (List.mem_cons_self _ _)
    have := ih (fun x hx => h x (List.mem_cons_of_mem _ hx))
    simp [ha, this]

theorem haltMusic_eq_self (p : SamplerPair)
    (h : p.isIdle Channel.music = true) : p.haltMusic = p := by
  cases p with
  | mk m x =>
    cases m with
    | none => rfl
    | some st =>
      cases st
      simp_all [SamplerPair.haltMusic, NSFSoundStream.stop, NSFSoundStream.getStatus,
        SamplerPair.isIdle, SamplerPair.stream]

theorem haltSample_eq_self (p : SamplerPair)
    (h : p.isIdle Channel.sample = true) : p.haltSample = p := by
  cases p with
  | mk m x =>
    cases x with
    | none => rfl
    | some st =>
      cases st
      simp_all [SamplerPair.haltSample, NSFSoundStream.stop, NSFSoundStream.getStatus,
        NSFSoundStream.stopAllSamplers, SamplerPair.isIdle, SamplerPair.stream]

theorem haltMusic_idem (p : SamplerPair) : p.haltMusic.haltMusic = p.haltMusic := by
  cases p with
  | mk m x => cases m <;> simp [SamplerPair.haltMusic, NSFSoundStream.stop]

theorem haltSample_idem (p : SamplerPair) : p.haltSample.haltSample = p.haltSample := by
  cases p with
  | mk m x =>
    cases x <;> simp [SamplerPair.haltSample, NSFSoundStream.stop,
      NSFSoundStream.stopAllSamplers]

theorem stopMusic_fst (s : SoundLibrary) :
    s.stopMusic.1 = { s with samplers := s.samplers.map SamplerPair.haltMusic } := by
  simp [stopMusic, stopMusicFrom_fst]

theorem stopSample_fst (s : SoundLibrary) :
    s.stopSample.1 = { s with samplers := s.samplers.map SamplerPair.haltSample } := by
  simp [stopSample, stopSampleFrom_fst]

/-- C12, as stated, fails: in a pool where no stream reports Playing but the music and the
sample stream of slot 0 are Paused, `stopMusic` and `stopSample` change the status of those
streams from Paused to Stopped. -/
theorem stop_changes_paused :
    playingCount Channel.music pausedLibrary.samplers = 0 ∧
      streamAt pausedLibrary.samplers 0 Channel.music =
        some ⟨Status.Paused, 0, "a.nsf", true⟩ ∧
      streamAt pausedLibrary.stopMusic.1.samplers 0 Channel.music =
        some ⟨Status.Stopped, 0, "a.nsf", true⟩ ∧
      pausedLibrary.stopMusic.1 ≠ pausedLibrary ∧
      playingCount Channel.sample pausedLibrary.samplers = 0 ∧
      streamAt pausedLibrary.stopSample.1.samplers 0 Channel.sample =
        some ⟨Status.Stopped, 0, "a.nsf", true⟩ ∧
      pausedLibrary.stopSample.1 ≠ pausedLibrary := by
  decide

/-- C12, amended. Idempotent stop: for every pool (pairs without a music or sample stream
included) in which every music stream (respectively every sample stream) reports Stopped,
`stopMusic` (respectively `stopSample`) leaves the whole library state as it was: every
stream, both catalogs and the approved-sample reference. In any state the catalogs, the
approved-sample reference and the selected tracks are left as they were, and `stopMusic`
applied twice gives the state `stopMusic` applied once gives; likewise `stopSample`. -/
theorem stop_idempotent (s : SoundLibrary) :
    (allIdle Channel.music s.samplers = true → s.stopMusic.1 = s) ∧
    (allIdle Channel.sample s.samplers = true → s.stopSample.1 = s) ∧
    (s.stopMusic.1.music = s.music ∧ s.stopMusic.1.samples = s.samples ∧
      s.stopMusic.1.currentlyPlayingSample = s.currentlyPlayingSample ∧
      ∀ j ch, (streamAt s.stopMusic.1.samplers j ch).map NSFSoundStream.track =
        (streamAt s.samplers j ch).map NSFSoundStream.track) ∧
    (s.stopSample.1.music = s.music ∧ s.stopSample.1.samples = s.samples ∧
      s.stopSample.1.currentlyPlayingSample = s.currentlyPlayingSample ∧
      ∀ j ch, (streamAt s.stopSample.1.samplers j ch).map NSFSoundStream.track =
        (streamAt s.samplers j ch).map NSFSoundStream.track) ∧
    s.stopMusic.1.stopMusic.1 = s.stopMusic.1 ∧
    s.stopSample.1.stopSample.1 = s.stopSample.1 := by
  refine ⟨?_, ?_, ⟨rfl, rfl, rfl, ?_⟩, ⟨rfl, rfl, rfl, ?_⟩, ?_, ?_⟩
  · intro h
    rw [stopMusic_fst]
    have : s.samplers.map SamplerPair.haltMusic = s.samplers := by
      apply map_eq_self_of_mem
      intro p hp
      exact haltMusic_eq_self p (List.all_eq_true.mp h p hp)
    rw [this]
  · intro h
    rw [stopSample_fst]
    have : s.samplers.map SamplerPair.haltSample = s.samplers := by
      apply map_eq_self_of_mem
      intro p hp
      exact haltSample_eq_self p (List.all_eq_true.mp h p hp)
    rw [this]
  · intro j ch
    rw [stopMusic_samplers, streamAt_haltMusic]
    cases ch
    · cases streamAt s.samplers j Channel.music <;> simp [NSFSoundStream.stop]
    · rfl
  · intro j ch
    rw [stopSample_samplers, streamAt_haltSample]
    cases ch
    · rfl
    · cases streamAt s.samplers j Channel.sample <;> simp [NSFSoundStream.stop]
  · rw [stopMusic_fst, stopMusic_fst]
    simp [haltMusic_idem]
  · rw [stopSample_fst, stopSample_fst]
    simp [haltSample_idem]

theorem stop_idempotent_witness :
    twoImages.stopMusic.1 = twoImages ∧ twoImages.stopSample.1 = twoImages :=
  ⟨(stop_idempotent twoImages).1 (by decide), (stop_idempotent twoImages).2.1 (by decide)⟩

end hikari

namespace hikari
open SoundLibrary

/-! ## Claim C13: the stop broadcasts -/

theorem stopMusicFrom_trace (i : Nat) (pool : List SamplerPair) :
    (stopMusicFrom i pool).2 =
      ((pool.enumFrom i).filter (fun ip => ip.2.musicStream.isSome)).map
        (fun ip => ⟨ip.1, Channel.music, Call.stop⟩) := by
  induction pool generalizing i with
  | nil => rfl
  | cons p ps ih =>
    cases hp : p.musicStream <;>
      simp [stopMusicFrom, hp, ih, List.enumFrom_cons, List.filter_cons]

theorem stopSampleFrom_trace (i : Nat) (pool : List SamplerPair) :
    (stopSampleFrom i pool).2 =
      (((pool.enumFrom i).filter (fun ip => ip.2.sampleStream.isSome)).map
        (fun ip => [(⟨ip.1, Channel.sample, Call.stopAllSamplers⟩ : Command),
          ⟨ip.1, Channel.sample, Call.stop⟩])).flatten := by
  induction pool generalizing i with
  | nil => rfl
  | cons p ps ih =>
    cases hp : p.sampleStream <;>
      simp [stopSampleFrom, hp, ih, List.enumFrom_cons, List.filter_cons]

theorem count_stopMusicFrom (i : Nat) (pool : List SamplerPair) (j : Nat) :
    List.count (⟨j, Channel.music, Call.stop⟩ : Command) (stopMusicFrom i pool).2 =
      if i ≤ j ∧ (streamAt pool (j - i) Channel.music).isSome = true then 1 else 0 := by
  induction pool generalizing i with
  | nil => simp [stopMusicFrom, streamAt]
  | cons p ps ih =>
    have hrest := ih (i + 1)
    by_cases hij : j = i
    · subst hij
      have h0 : List.count (⟨j, Channel.music, Call.stop⟩ : Command)
          (stopMusicFrom (j + 1) ps).2 = 0 := by
        rw [hrest]; simp
      cases hp : p.musicStream <;>
        simp [stopMusicFrom, hp, h0, streamAt, SamplerPair.stream, List.count_cons]
    · by_cases hlt : i < j
      · have e1 : j - i = (j - (i + 1)) + 1 := by omega
        have hs : streamAt (p :: ps) (j - i) Channel.music =
            streamAt ps (j - (i + 1)) Channel.music := by
          rw [e1]; simp [streamAt]
        have hne : ¬ i = j := fun e => hij e.symm
        have hle : i + 1 ≤ j := hlt
        have hle2 : i ≤ j := by omega
        cases hp : p.musicStream <;>
          simp [stopMusicFrom, hp, hrest, hs, List.count_cons, hne, hle, hle2]
      · have hle : ¬ i ≤ j := by omega
        have hle1 : ¬ i + 1 ≤ j := by omega
        have hne : ¬ i = j := fun e => hij e.symm
        cases hp : p.musicStream <;>
          simp [stopMusicFrom, hp, hrest, List.count_cons, hne, hle, hle1]

/-- C13. The stop broadcasts. `stopSample` issues, going through the pool in order, to every
pair that has a sample stream first `stopAllSamplers` and then `stop`, and nothing else: both
commands reach every sample stream, every command is on the sample channel, and afterwards
every sample stream reports Stopped. `stopMusic` issues, in pool order, one `stop` to every
pair that has a music stream and nothing else: every command is a `stop` on the music channel
and every music stream receives exactly one. -/
theorem stop_broadcast (s : SoundLibrary) :
    (s.stopSample.2 = sampleBroadcast s.samplers ∧
      (∀ j src, streamAt s.samplers j Channel.sample = some src →
        (⟨j, Channel.sample, Call.stopAllSamplers⟩ : Command) ∈ s.stopSample.2 ∧
        (⟨j, Channel.sample, Call.stop⟩ : Command) ∈ s.stopSample.2) ∧
      (∀ c ∈ s.stopSample.2, c.channel = Channel.sample) ∧
      (∀ j st, streamAt s.stopSample.1.samplers j Channel.sample = some st →
        st.getStatus = Status.Stopped)) ∧
    (s.stopMusic.2 = musicBroadcast s.samplers ∧
      (∀ c ∈ s.stopMusic.2, c.channel = Channel.music ∧ c.call = Call.stop) ∧
      (∀ j src, streamAt s.samplers j Channel.music = some src →
        List.count (⟨j, Channel.music, Call.stop⟩ : Command) s.stopMusic.2 = 1) ∧
      (∀ j st, streamAt s.stopMusic.1.samplers j Channel.music = some st →
        st.getStatus = Status.Stopped)) := by
  refine ⟨⟨?_, ?_, ?_, ?_⟩, ⟨?_, ?_, ?_, ?_⟩⟩
  · simp [stopSample, sampleBroadcast, stopSampleFrom_trace, List.enum]
  · intro j src hsrc
    simpa [stopSample] using stop_mem_stopSampleFrom 0 s.samplers j src hsrc
  · intro c hc
    exact (stopSampleFrom_calls 0 s.samplers c hc).1
  · intro j st hst
    rw [stopSample_samplers, streamAt_haltSample] at hst
    cases hsrc : streamAt s.samplers j Channel.sample with
    | none => simp [hsrc] at hst
    | some src =>
      simp [hsrc] at hst
      subst hst
      rfl
  · simp [stopMusic, musicBroadcast, stopMusicFrom_trace, List.enum]
  · exact stopMusicFrom_calls 0 s.samplers
  · intro j src hsrc
    have := count_stopMusicFrom 0 s.samplers j
    simpa [stopMusic, hsrc] using this
  · intro j st hst
    rw [stopMusic_samplers, streamAt_haltMusic] at hst
    cases hsrc : streamAt s.samplers j Channel.music with
    | none => simp [hsrc] at hst
    | some src =>
      simp [hsrc] at hst
      subst hst
      rfl

theorem stop_broadcast_witness :
    ((⟨1, Channel.sample, Call.stopAllSamplers⟩ : Command) ∈ hitPlaying.stopSample.2 ∧
        (⟨1, Channel.sample, Call.stop⟩ : Command) ∈ hitPlaying.stopSample.2) ∧
      List.count (⟨0, Channel.music, Call.stop⟩ : Command) hitPlaying.stopMusic.2 = 1 :=
  ⟨(stop_broadcast hitPlaying).1.2.1 1 ⟨Status.Playing, 2, "b.nsf", true⟩ (by decide),
    (stop_broadcast hitPlaying).2.2.2.1 0 ⟨Status.Stopped, 0, "a.nsf", true⟩ (by decide)⟩

/-! ## Claim C14: the two channels do not touch each other -/

theorem playSample_pool (s : SoundLibrary) (name : String) :
    ∃ pool cur, (s.playSample name).state =
        { s with samplers := pool, currentlyPlayingSample := cur } ∧
      pool.length = s.samplers.length ∧
      ∀ j, streamAt pool j Channel.music = streamAt s.samplers j Channel.music := by
  rcases playSample_branches s name with ⟨h, -⟩ | ⟨e, -, -, hrun⟩
  · exact ⟨s.samplers, s.currentlyPlayingSample, h, rfl, fun _ => rfl⟩
  · obtain ⟨pool, cur, hstate, -, hlen, hpool⟩ := playApproved_pool s e
    exact ⟨pool, cur, by rw [hrun, hstate], hlen, fun j => hpool j Channel.music⟩

theorem playMusic_trace (s : SoundLibrary) (name : String) :
    ∀ c ∈ (s.playMusic name).trace, c.channel = Channel.music ∧
      (c.call ≠ Call.stop → ∃ e, s.music.find name = some e ∧ c.slot = e.samplerId) := by
  cases he : s.music.find name with
  | none => simp [playMusic, he]
  | some e =>
    cases hp : s.samplers[e.samplerId]? with
    | none => simp [playMusic, he, hp]
    | some p =>
      obtain ⟨tail, htr, htail⟩ := startStream_trace s.stopMusic e.samplerId Channel.music e.track
      intro c hc
      simp only [playMusic, he, hp, htr, List.mem_append] at hc
      rcases hc with hc | hc
      · have := stopMusicFrom_calls 0 s.samplers c hc
        exact ⟨this.1, fun hne => absurd this.2 hne⟩
      · exact ⟨(htail c hc).2, fun _ => ⟨e, rfl, (htail c hc).1⟩⟩

theorem playApproved_trace (s : SoundLibrary) (e : SampleEntry) :
    ∀ c ∈ (playApproved s e).trace, c.channel = Channel.sample ∧
      (c.call ≠ Call.stop → c.call ≠ Call.stopAllSamplers → c.slot = e.samplerId) := by
  obtain ⟨tail, htr, htail⟩ := startStream_trace s.stopSample e.samplerId Channel.sample e.track
  have htrace : (playApproved s e).trace =
      (startStream s.stopSample e.samplerId Channel.sample e.track).trace := by
    unfold playApproved
    simp only
    split <;> rfl
  intro c hc
  rw [htrace, htr, List.mem_append] at hc
  rcases hc with hc | hc
  · have := stopSampleFrom_calls 0 s.samplers c hc
    refine ⟨this.1, fun h1 h2 => ?_⟩
    rcases this.2 with h | h
    · exact absurd h h2
    · exact absurd h h1
  · exact ⟨(htail c hc).2, fun _ _ => (htail c hc).1⟩

theorem playSample_trace (s : SoundLibrary) (name : String) :
    ∀ c ∈ (s.playSample name).trace, c.channel = Channel.sample ∧
      (c.call ≠ Call.stop → c.call ≠ Call.stopAllSamplers →
        ∃ e, s.samples.find name = some e ∧ c.slot = e.samplerId) := by
  rcases playSample_branches s name with ⟨-, h⟩ | ⟨e, he, -, hrun⟩
  · simp [h]
  · intro c hc
    rw [hrun] at hc
    have := playApproved_trace s e c hc
    exact ⟨this.1, fun h1 h2 => ⟨e, he, this.2 h1 h2⟩⟩

/-- C14. Channel independence. In every state and for every name, `playMusic` and `stopMusic`
leave every sample stream and the approved-sample reference as they were, and `playSample` and
`stopSample` leave every music stream as it was; `playMusic` issues commands on the music
channel only and `playSample` on the sample channel only, and the commands other than those of
the stop broadcast (`setCurrentTrack`, `play`) go to the pair at the `samplerId` of the entry
registered under the name. In the two-image scenario, after `playMusic("theme")` and
`playSample("hit")` the sample stream of slot 0 and the music stream of slot 1 are as they
were after load. -/
theorem channel_independence (s : SoundLibrary) (name : String) :
    ((∀ j, streamAt (s.playMusic name).state.samplers j Channel.sample =
          streamAt s.samplers j Channel.sample) ∧
      (s.playMusic name).state.currentlyPlayingSample = s.currentlyPlayingSample ∧
      (∀ j, streamAt s.stopMusic.1.samplers j Channel.sample =
          streamAt s.samplers j Channel.sample) ∧
      s.stopMusic.1.currentlyPlayingSample = s.currentlyPlayingSample) ∧
    ((∀ j, streamAt (s.playSample name).state.samplers j Channel.music =
          streamAt s.samplers j Channel.music) ∧
      (∀ j, streamAt s.stopSample.1.samplers j Channel.music =
          streamAt s.samplers j Channel.music)) ∧
    ((∀ c ∈ (s.playMusic name).trace, c.channel = Channel.music ∧
        (c.call ≠ Call.stop → ∃ e, s.music.find name = some e ∧ c.slot = e.samplerId)) ∧
      (∀ c ∈ (s.playSample name).trace, c.channel = Channel.sample ∧
        (c.call ≠ Call.stop → c.call ≠ Call.stopAllSamplers →
          ∃ e, s.samples.find name = some e ∧ c.slot = e.samplerId))) ∧
    (streamAt ((twoImages.playMusic "theme").state.playSample "hit").state.samplers 0
          Channel.sample = streamAt twoImages.samplers 0 Channel.sample ∧
      streamAt ((twoImages.playMusic "theme").state.playSample "hit").state.samplers 1
          Channel.music = streamAt twoImages.samplers 1 Channel.music) := by
  refine ⟨⟨?_, ?_, ?_, rfl⟩, ⟨?_, ?_⟩, ⟨playMusic_trace s name, playSample_trace s name⟩,
    by decide, by decide⟩
  · intro j
    rcases playMusic_pool s name with h | ⟨e, pool, -, -, hstate, -, hpool⟩
    · rw [h]
    · rw [hstate]; exact hpool j Channel.sample
  · rcases playMusic_pool s name with h | ⟨e, pool, -, -, hstate, -, -⟩
    · rw [h]
    · rw [hstate]
  · intro j
    rw [stopMusic_samplers, streamAt_haltMusic]
  · intro j
    obtain ⟨pool, cur, hstate, -, hpool⟩ := playSample_pool s name
    rw [hstate]; exact hpool j
  · intro j
    rw [stopSample_samplers, streamAt_haltSample]

theorem channel_independence_witness :
    (⟨0, Channel.music, Call.play⟩ : Command).channel = Channel.music ∧
      ∃ e, twoImages.music.find "theme" = some e ∧
        (⟨0, Channel.music, Call.play⟩ : Command).slot = e.samplerId :=
  have h := (channel_independence twoImages "theme").2.2.1.1 ⟨0, Channel.music, Call.play⟩
    (by decide)
  ⟨h.1, h.2 (by decide)⟩

end hikari

namespace hikari
open SoundLibrary

/-! ## Claim C16: the enabled flag -/

theorem startStream_flag (stopped : SoundLibrary × List Command) (b : Bool) (slot : Nat)
    (ch : Channel) (track : Nat) :
    startStream ({ stopped.1 with isEnabledFlag := b }, stopped.2) slot ch track =
      ⟨(startStream stopped slot ch track).result,
        { (startStream stopped slot ch track).state with isEnabledFlag := b },
        (startStream stopped slot ch track).trace⟩ := by
  unfold startStream
  cases h1 : perform ⟨slot, ch, Call.setCurrentTrack track⟩ stopped.1.samplers with
  | none => simp only [h1]
  | some selected =>
    cases h2 : perform ⟨slot, ch, Call.play⟩ selected with
    | none => simp only [h1, h2]
    | some playing => simp only [h1, h2]

theorem playMusic_flag (s : SoundLibrary) (b : Bool) (name : String) :
    playMusic { s with isEnabledFlag := b } name =
      ⟨(s.playMusic name).result, { (s.playMusic name).state with isEnabledFlag := b },
        (s.playMusic name).trace⟩ := by
  unfold playMusic
  simp only
  cases s.music.find name with
  | none => rfl
  | some e =>
    simp only
    cases s.samplers[e.samplerId]? with
    | none => rfl
    | some p => exact startStream_flag s.stopMusic b e.samplerId Channel.music e.track

theorem playApproved_flag (s : SoundLibrary) (b : Bool) (e : SampleEntry) :
    playApproved { s with isEnabledFlag := b } e =
      ⟨(playApproved s e).result, { (playApproved s e).state with isEnabledFlag := b },
        (playApproved s e).trace⟩ := by
  have h := startStream_flag s.stopSample b e.samplerId Channel.sample e.track
  unfold playApproved
  simp only
  have h2 : startStream (stopSample { s with isEnabledFlag := b }) e.samplerId Channel.sample
      e.track = startStream ({ s.stopSample.1 with isEnabledFlag := b }, s.stopSample.2)
        e.samplerId Channel.sample e.track := rfl
  rw [h2, h]
  generalize startStream s.stopSample e.samplerId Channel.sample e.track = o
  obtain ⟨r, st, tr⟩ := o
  cases r <;> rfl

theorem playSample_flag (s : SoundLibrary) (b : Bool) (name : String) :
    playSample { s with isEnabledFlag := b } name =
      ⟨(s.playSample name).result, { (s.playSample name).state with isEnabledFlag := b },
        (s.playSample name).trace⟩ := by
  obtain ⟨flag, file, music, samples, samplers, cur⟩ := s
  have hA := fun c e => playApproved_flag ⟨flag, file, music, samples, samplers, c⟩ b e
  unfold playSample
  simp only
  cases samples.find name with
  | none => rfl
  | some e =>
    simp only
    cases samplers[e.samplerId]? with
    | none => rfl
    | some p =>
      simp only
      cases cur with
      | none => exact hA none e
      | some c =>
        simp only
        cases samplers[c.samplerId]? with
        | none => rfl
        | some cp =>
          simp only
          cases cp.sampleStream with
          | none => rfl
          | some st =>
            simp only
            by_cases h1 : st.getStatus = Status.Playing
            · by_cases h2 : e.priority < c.priority
              · simp only [h1, h2, if_true]
              · simp only [h1, h2, if_true, if_false]; exact hA (some c) e
            · simp only [h1, if_false]; exact hA (some c) e

theorem playMusic_state_flag (s : SoundLibrary) (name : String) :
    (s.playMusic name).state.isEnabledFlag = s.isEnabledFlag := by
  rcases playMusic_pool s name with h | ⟨e, pool, -, -, hstate, -, -⟩
  · rw [h]
  · rw [hstate]

theorem playSample_state_flag (s : SoundLibrary) (name : String) :
    (s.playSample name).state.isEnabledFlag = s.isEnabledFlag := by
  rcases playSample_branches s name with ⟨h, -⟩ | ⟨e, -, -, hrun⟩
  · rw [h]
  · obtain ⟨pool, cur, hstate, -, -, -⟩ := playApproved_pool s e
    rw [hrun, hstate]

/-- C16. The enabled flag: `isEnabled` is false in the state the member initialisers build,
before `loadLibrary` runs; it is true in the library the constructor returns for every
manifest, also when parsing fails (pool and catalogs are then empty) and whatever images fail
to open; no action on the library (`addMusic`, `addSample`, `playMusic`, `playSample`,
`stopMusic`, `stopSample`, a stream finishing) changes it; and none of the calls consults it:
run from a state that differs only in the flag, each returns the same result, issues the same
commands and leaves the same state up to the flag. -/
theorem enabled_flag (file : String) (canOpen : String → Bool)
    (root : Option (List ImageDescriptor)) (s : SoundLibrary) (b : Bool) (a : Action)
    (name : String) :
    (initial file).isEnabled = false ∧
      (create file canOpen root).isEnabled = true ∧
      create file canOpen none = ⟨true, file, Catalog.empty, Catalog.empty, [], none⟩ ∧
      (s.act a).isEnabled = s.isEnabled ∧
      act { s with isEnabledFlag := b } a = { s.act a with isEnabledFlag := b } ∧
      playMusic { s with isEnabledFlag := b } name =
        ⟨(s.playMusic name).result, { (s.playMusic name).state with isEnabledFlag := b },
          (s.playMusic name).trace⟩ ∧
      playSample { s with isEnabledFlag := b } name =
        ⟨(s.playSample name).result, { (s.playSample name).state with isEnabledFlag := b },
          (s.playSample name).trace⟩ ∧
      stopMusic { s with isEnabledFlag := b } =
        ({ s.stopMusic.1 with isEnabledFlag := b }, s.stopMusic.2) ∧
      stopSample { s with isEnabledFlag := b } =
        ({ s.stopSample.1 with isEnabledFlag := b }, s.stopSample.2) := by
  refine ⟨rfl, rfl, rfl, ?_, ?_, playMusic_flag s b name, playSample_flag s b name, rfl, rfl⟩
  · cases a with
    | addMusic n e => rfl
    | addSample n e => rfl
    | playMusic n => exact playMusic_state_flag s n
    | playSample n => exact playSample_state_flag s n
    | stopMusic => rfl
    | stopSample => rfl
    | finish j ch => rfl
  · cases a with
    | addMusic n e => rfl
    | addSample n e => rfl
    | playMusic n => simp only [act, playMusic_flag]
    | playSample n => simp only [act, playSample_flag]
    | stopMusic => rfl
    | stopSample => rfl
    | finish j ch => rfl

/-! ## Claim C18: the approved priority while a sample sounds -/

/-- C18. The approved priority never drops while a sample is sounding: when an approved sample
`c` is recorded and its sample stream reports Playing, then after `playSample(name)`, for
every name (unknown, rejected, accepted, or failing), an approved sample is recorded whose
priority is greater than or equal to that of `c`. -/
theorem approved_priority_monotone (s : SoundLibrary) (name : String) (c : SampleEntry)
    (st : NSFSoundStream)
    (hc : s.currentlyPlayingSample = some c)
    (hst : streamAt s.samplers c.samplerId Channel.sample = some st)
    (hplaying : st.getStatus = Status.Playing) :
    ∃ c2, (s.playSample name).state.currentlyPlayingSample = some c2 ∧
      c2.priority ≥ c.priority := by
  rcases playSample_branches s name with ⟨h, -⟩ | ⟨e, he, hvalid, hrun⟩
  · exact ⟨c, by rw [h, hc], le_refl _⟩
  · by_cases hlt : e.priority < c.priority
    · have := playSample_eq_rejected s name c e st hc hst hplaying he hvalid hlt
      exact ⟨c, by rw [this]; exact hc, le_refl _⟩
    · obtain ⟨pool, cur, hstate, hcur, -, -⟩ := playApproved_pool s e
      rw [hrun, hstate]
      rcases hcur with h | h
      · exact ⟨c, by rw [h]; exact hc, le_refl _⟩
      · exact ⟨e, by rw [h], Nat.le_of_not_lt hlt⟩

theorem approved_priority_monotone_witness :
    ∃ c2, (hitPlaying.playSample "gone").state.currentlyPlayingSample = some c2 ∧
      c2.priority ≥ 5 :=
  approved_priority_monotone hitPlaying "gone" ⟨2, 5, 1⟩ ⟨Status.Playing, 2, "b.nsf", true⟩
    (by decide) (by decide) (by decide)

end hikari

namespace hikari
open SoundLibrary

/-! ## Histories: what every action preserves -/

theorem finishStream_pool (pool : List SamplerPair) (slot : Nat) (ch : Channel) :
    (finishStream pool slot ch).length = pool.length ∧
      ∀ j ch2, streamAt (finishStream pool slot ch) j ch2 = streamAt pool j ch2 ∨
        ∃ st, streamAt pool j ch2 = some st ∧
          streamAt (finishStream pool slot ch) j ch2 = some st.stop := by
  unfold finishStream
  cases hst : streamAt pool slot ch with
  | none => exact ⟨rfl, fun _ _ => Or.inl rfl⟩
  | some st =>
    by_cases hp : st.getStatus = Status.Playing
    · obtain ⟨pool2, hperf, hlen, hpool⟩ := perform_of_streamAt pool ⟨slot, ch, Call.stop⟩ hst
      simp only [hp, if_true, hperf, Option.getD_some]
      refine ⟨hlen, ?_⟩
      intro j ch2
      rw [hpool]
      by_cases hc : j = slot ∧ ch2 = ch
      · obtain ⟨rfl, rfl⟩ := hc
        exact Or.inr ⟨st, hst, by simp [Call.run]⟩
      · exact Or.inl (by simp [hc])
    · dsimp only
      rw [if_neg hp]
      exact ⟨rfl, fun _ _ => Or.inl rfl⟩

theorem origin_stop (st : NSFSoundStream) : st.stop.origin = st.origin := rfl

theorem origin_start (st : NSFSoundStream) (t : Nat) :
    ((st.stop.setCurrentTrack t).play).origin = st.origin := rfl

/-- No action changes the size of the pool or replaces a stream object: slot by slot and
channel by channel the stream after the action is there exactly when it was there before, and
comes from the same image. -/
theorem act_frame (s : SoundLibrary) (a : Action) :
    (s.act a).samplers.length = s.samplers.length ∧
      ∀ j ch, (streamAt (s.act a).samplers j ch).map NSFSoundStream.origin =
        (streamAt s.samplers j ch).map NSFSoundStream.origin := by
  cases a with
  | addMusic n e => exact ⟨rfl, fun _ _ => rfl⟩
  | addSample n e => exact ⟨rfl, fun _ _ => rfl⟩
  | playMusic n =>
    rcases playMusic_pool s n with h | ⟨e, pool, -, -, hstate, hlen, hpool⟩
    · rw [show s.act (Action.playMusic n) = s from h]; exact ⟨rfl, fun _ _ => rfl⟩
    · simp only [act, hstate]
      refine ⟨hlen, fun j ch => ?_⟩
      rw [hpool]
      cases ch
      · by_cases hj : j = e.samplerId <;>
          cases streamAt s.samplers j Channel.music <;> simp [hj, origin_stop, origin_start]
      · rfl
  | playSample n =>
    rcases playSample_branches s n with ⟨h, -⟩ | ⟨e, -, -, hrun⟩
    · rw [show s.act (Action.playSample n) = s from h]; exact ⟨rfl, fun _ _ => rfl⟩
    · obtain ⟨pool, cur, hstate, -, hlen, hpool⟩ := playApproved_pool s e
      simp only [act, hrun, hstate]
      refine ⟨hlen, fun j ch => ?_⟩
      rw [hpool]
      cases ch
      · rfl
      · by_cases hj : j = e.samplerId <;>
          cases streamAt s.samplers j Channel.sample <;> simp [hj, origin_stop, origin_start]
  | stopMusic =>
    simp only [act, stopMusic_samplers]
    refine ⟨by simp, fun j ch => ?_⟩
    rw [streamAt_haltMusic]
    cases ch
    · cases streamAt s.samplers j Channel.music <;> simp [origin_stop]
    · rfl
  | stopSample =>
    simp only [act, stopSample_samplers]
    refine ⟨by simp, fun j ch => ?_⟩
    rw [streamAt_haltSample]
    cases ch
    · rfl
    · cases streamAt s.samplers j Channel.sample <;> simp [origin_stop]
  | finish slot c =>
    obtain ⟨hlen, hpool⟩ := finishStream_pool s.samplers slot c
    simp only [act]
    refine ⟨hlen, fun j ch => ?_⟩
    rcases hpool j ch with h | ⟨st, h1, h2⟩
    · rw [h]
    · rw [h1, h2]; simp [origin_stop]

/-- An action leaves the approved-sample reference as it was, or sets it to an entry whose
`samplerId` is an index of the pool. -/
theorem act_current (s : SoundLibrary) (a : Action) :
    (s.act a).currentlyPlayingSample = s.currentlyPlayingSample ∨
      ∃ e, (s.act a).currentlyPlayingSample = some e ∧ e.samplerId < s.samplers.length := by
  cases a with
  | addMusic n e => exact Or.inl rfl
  | addSample n e => exact Or.inl rfl
  | playMusic n =>
    rcases playMusic_pool s n with h | ⟨e, pool, -, -, hstate, -, -⟩
    · rw [show s.act (Action.playMusic n) = s from h]; exact Or.inl rfl
    · rw [show s.act (Action.playMusic n) = _ from hstate]; exact Or.inl rfl
  | playSample n =>
    rcases playSample_branches s n with ⟨h, -⟩ | ⟨e, -, hvalid, hrun⟩
    · rw [show s.act (Action.playSample n) = s from h]; exact Or.inl rfl
    · obtain ⟨pool, cur, hstate, hcur, -, -⟩ := playApproved_pool s e
      simp only [act, hrun, hstate]
      rcases hcur with h | h
      · exact Or.inl h
      · exact Or.inr ⟨e, h, hvalid⟩
  | stopMusic => exact Or.inl rfl
  | stopSample => exact Or.inl rfl
  | finish slot c => exact Or.inl rfl

theorem poolIntact_act (n : Nat) (s : SoundLibrary) (hP : PoolIntact n s) (a : Action) :
    PoolIntact n (s.act a) := by
  obtain ⟨hlen, horigin⟩ := act_frame s a
  refine ⟨by rw [hlen, hP.size], ?_, ?_⟩
  · intro j ch hj
    have h1 := hP.present j ch hj
    have h2 := horigin j ch
    cases hb : streamAt s.samplers j ch with
    | none => simp [hb] at h1
    | some st =>
      cases ha : streamAt (s.act a).samplers j ch with
      | none => simp [ha, hb] at h2
      | some st2 => rfl
  · intro c hc
    rcases act_current s a with h | ⟨e, he, hvalid⟩
    · exact hP.current_valid c (by rw [← h]; exact hc)
    · have : e = c := by rw [he] at hc; simpa using hc
      rw [← this, ← hP.size]; exact hvalid

theorem poolIntact_run (n : Nat) (s : SoundLibrary) (hP : PoolIntact n s) (acts : List Action) :
    PoolIntact n (s.run acts) := by
  induction acts generalizing s with
  | nil => exact hP
  | cons a rest ih => exact ih (s.act a) (poolIntact_act n s hP a)

theorem poolIntact_create (file : String) (canOpen : String → Bool)
    (root : Option (List ImageDescriptor)) :
    PoolIntact (root.getD []).length (create file canOpen root) := by
  have hC := consistent_create file canOpen root
  have hlen : (create file canOpen root).samplers.length = (root.getD []).length := by
    rw [create_samplers]; simp
  exact ⟨hlen, fun j ch hj => hC.present j ch (by rw [hlen]; exact hj),
    fun c hc => by rw [← hlen]; exact hC.current_valid c hc⟩

theorem origin_run (s : SoundLibrary) (acts : List Action) :
    (s.run acts).samplers.length = s.samplers.length ∧
      ∀ j ch, (streamAt (s.run acts).samplers j ch).map NSFSoundStream.origin =
        (streamAt s.samplers j ch).map NSFSoundStream.origin := by
  induction acts generalizing s with
  | nil => exact ⟨rfl, fun _ _ => rfl⟩
  | cons a rest ih =>
    obtain ⟨h1, h2⟩ := ih (s.act a)
    obtain ⟨h3, h4⟩ := act_frame s a
    exact ⟨by simp only [run]; rw [h1, h3], fun j ch => by simp only [run]; rw [h2, h4]⟩

/-- The branches of `playSample` when the pool is intact: nothing happens (unknown name or
rejection), the requested entry points outside the pool, or the approved path runs on a sample
stream that is there. -/
theorem playSample_intact (n : Nat) (s : SoundLibrary) (hP : PoolIntact n s) (name : String) :
    s.playSample name = ⟨Except.ok none, s, []⟩ ∨
    (∃ e, s.samples.find name = some e ∧ s.samplers.length ≤ e.samplerId ∧
      s.playSample name = ⟨Except.error Failure.outOfRange, s, []⟩) ∨
    ∃ e tgt, s.samples.find name = some e ∧
      streamAt s.samplers e.samplerId Channel.sample = some tgt ∧
      s.playSample name = playApproved s e := by
  cases he : s.samples.find name with
  | none => left; simp [playSample, he]
  | some e =>
    by_cases hv : e.samplerId < s.samplers.length
    · obtain ⟨tgt, htgt⟩ := Option.isSome_iff_exists.mp
        (hP.present e.samplerId Channel.sample (by rw [← hP.size]; exact hv))
      cases hc : s.currentlyPlayingSample with
      | none =>
        exact Or.inr (Or.inr ⟨e, tgt, rfl, htgt,
          playSample_eq_playApproved_of_none s name e tgt hc he htgt⟩)
      | some c =>
        obtain ⟨st, hst⟩ := Option.isSome_iff_exists.mp
          (hP.present c.samplerId Channel.sample (hP.current_valid c hc))
        by_cases hrej : st.getStatus = Status.Playing ∧ e.priority < c.priority
        · exact Or.inl (playSample_eq_rejected s name c e st hc hst hrej.1 he hv hrej.2)
        · refine Or.inr (Or.inr ⟨e, tgt, rfl, htgt,
            playSample_eq_playApproved_of_le s name c e st tgt hc hst he htgt ?_⟩)
          intro hp
          by_contra hlt
          exact hrej ⟨hp, Nat.lt_of_not_le hlt⟩
    · right; left
      have hnone : s.samplers[e.samplerId]? = none :=
        List.getElem?_eq_none (Nat.le_of_not_lt hv)
      exact ⟨e, rfl, Nat.le_of_not_lt hv, by simp [playSample, he, hnone]⟩

/-- The branches of `playMusic` when the pool is intact. -/
theorem playMusic_intact (n : Nat) (s : SoundLibrary) (hP : PoolIntact n s) (name : String) :
    s.playMusic name = ⟨Except.ok none, s, []⟩ ∨
    (∃ e, s.music.find name = some e ∧ s.samplers.length ≤ e.samplerId ∧
      s.playMusic name = ⟨Except.error Failure.outOfRange, s, []⟩) ∨
    ∃ e, s.music.find name = some e ∧ e.samplerId < s.samplers.length ∧
      (s.playMusic name).result = Except.ok (some ⟨e.samplerId, Channel.music⟩) := by
  cases he : s.music.find name with
  | none => left; simp [playMusic, he]
  | some e =>
    by_cases hv : e.samplerId < s.samplers.length
    · obtain ⟨tgt, htgt⟩ := Option.isSome_iff_exists.mp
        (hP.present e.samplerId Channel.music (by rw [← hP.size]; exact hv))
      obtain ⟨tp, htp, -⟩ := getElem?_of_streamAt htgt
      obtain ⟨pool, hrun, -, -, -⟩ := startMusic_of_streamAt s e htgt
      refine Or.inr (Or.inr ⟨e, rfl, hv, ?_⟩)
      simp only [playMusic, he, htp, hrun]
    · right; left
      have hnone : s.samplers[e.samplerId]? = none :=
        List.getElem?_eq_none (Nat.le_of_not_lt hv)
      exact ⟨e, rfl, Nat.le_of_not_lt hv, by simp [playMusic, he, hnone]⟩

end hikari

namespace hikari
open SoundLibrary

/-! ## Claim C15: catalog and pool after load -/

theorem Catalog.mem_insert {α : Type} (c : Catalog α) (n : String) (e : α) (kv : String × α)
    (h : kv ∈ (c.insert n e).entries) : kv = (n, e) ∨ kv ∈ c.entries := by
  unfold Catalog.insert at h
  cases hf : c.find n with
  | some x => simp [hf] at h; exact Or.inr h
  | none => simp [hf] at h; exact h

theorem Catalog.mem_of_findIn {α : Type} (l : List (String × α)) (name : String) (e : α)
    (h : Catalog.findIn l name = some e) : (name, e) ∈ l := by
  induction l with
  | nil => simp [Catalog.findIn] at h
  | cons kv rest ih =>
    obtain ⟨k, v⟩ := kv
    by_cases hk : k = name
    · simp [Catalog.findIn, hk] at h
      simp [hk, h]
    · simp [Catalog.findIn, hk] at h
      exact List.mem_cons_of_mem _ (ih h)

theorem loadMusic_entries_below (k : Nat) (mds : List MusicDescriptor)
    (c : Catalog MusicEntry) (n : Nat) (hk : k < n)
    (h : ∀ kv ∈ c.entries, kv.2.samplerId < n) :
    ∀ kv ∈ (loadMusic k mds c).entries, kv.2.samplerId < n := by
  induction mds generalizing c with
  | nil => exact h
  | cons md rest ih =>
    apply ih
    intro kv hkv
    rcases Catalog.mem_insert _ _ _ _ hkv with rfl | hmem
    · exact hk
    · exact h kv hmem

theorem loadSamples_entries_below (k : Nat) (sds : List SampleDescriptor)
    (c : Catalog SampleEntry) (n : Nat) (hk : k < n)
    (h : ∀ kv ∈ c.entries, kv.2.samplerId < n) :
    ∀ kv ∈ (loadSamples k sds c).entries, kv.2.samplerId < n := by
  induction sds generalizing c with
  | nil => exact h
  | cons sd rest ih =>
    apply ih
    intro kv hkv
    rcases Catalog.mem_insert _ _ _ _ hkv with rfl | hmem
    · exact hk
    · exact h kv hmem

theorem loadImages_entries_below (canOpen : String → Bool) (k : Nat)
    (images : List ImageDescriptor) (s : SoundLibrary) (n : Nat)
    (hn : k + images.length ≤ n)
    (hm : ∀ kv ∈ s.music.entries, kv.2.samplerId < n)
    (hs : ∀ kv ∈ s.samples.entries, kv.2.samplerId < n) :
    (∀ kv ∈ (loadImages canOpen k images s).music.entries, kv.2.samplerId < n) ∧
      (∀ kv ∈ (loadImages canOpen k images s).samples.entries, kv.2.samplerId < n) := by
  induction images generalizing k s with
  | nil => exact ⟨hm, hs⟩
  | cons d rest ih =>
    have hlen : k + 1 + rest.length ≤ n := by simp at hn; omega
    have hk : k < n := by omega
    exact ih (k + 1) _ hlen (loadMusic_entries_below k d.music s.music n hk hm)
      (loadSamples_entries_below k d.samples s.samples n hk hs)

theorem create_entries_valid (file : String) (canOpen : String → Bool)
    (root : Option (List ImageDescriptor)) :
    (∀ kv ∈ (create file canOpen root).music.entries,
        kv.2.samplerId < (create file canOpen root).samplers.length) ∧
      (∀ kv ∈ (create file canOpen root).samples.entries,
        kv.2.samplerId < (create file canOpen root).samplers.length) := by
  have hlen : (create file canOpen root).samplers.length = (root.getD []).length := by
    rw [create_samplers]; simp
  rw [hlen]
  cases root with
  | none => simp [create, loadLibrary, initial, Catalog.empty]
  | some images =>
    exact loadImages_entries_below canOpen 0 images (initial file) images.length (by simp)
      (by simp [initial, Catalog.empty]) (by simp [initial, Catalog.empty])

theorem act_catalogs (s : SoundLibrary) (a : Action) (ha : a.isRegistration = false) :
    (s.act a).music = s.music ∧ (s.act a).samples = s.samples := by
  cases a with
  | addMusic n e => simp [Action.isRegistration] at ha
  | addSample n e => simp [Action.isRegistration] at ha
  | playMusic n =>
    rcases playMusic_pool s n with h | ⟨e, pool, -, -, hstate, -, -⟩
    · rw [show s.act (Action.playMusic n) = s from h]; exact ⟨rfl, rfl⟩
    · rw [show s.act (Action.playMusic n) = _ from hstate]; exact ⟨rfl, rfl⟩
  | playSample n =>
    rcases playSample_branches s n with ⟨h, -⟩ | ⟨e, -, -, hrun⟩
    · rw [show s.act (Action.playSample n) = s from h]; exact ⟨rfl, rfl⟩
    · obtain ⟨pool, cur, hstate, -, -, -⟩ := playApproved_pool s e
      rw [show s.act (Action.playSample n) = (playApproved s e).state from
        congrArg Outcome.state hrun, hstate]
      exact ⟨rfl, rfl⟩
  | stopMusic => exact ⟨rfl, rfl⟩
  | stopSample => exact ⟨rfl, rfl⟩
  | finish slot c => exact ⟨rfl, rfl⟩

theorem run_catalogs (s : SoundLibrary) (acts : List Action)
    (h : acts.all (fun a => !a.isRegistration) = true) :
    (s.run acts).music = s.music ∧ (s.run acts).samples = s.samples := by
  induction acts generalizing s with
  | nil => exact ⟨rfl, rfl⟩
  | cons a rest ih =>
    simp only [List.all_cons, Bool.and_eq_true, Bool.not_eq_true'] at h
    obtain ⟨h1, h2⟩ := ih (s.act a) h.2
    obtain ⟨h3, h4⟩ := act_catalogs s a h.1
    exact ⟨by simp only [run]; rw [h1, h3], by simp only [run]; rw [h2, h4]⟩

/-- C15. Catalog/pool consistency after load: in the library the constructor builds from any
manifest, and in every state reached from it by calls other than registrations (`playMusic`,
`playSample`, `stopMusic`, `stopSample`, streams finishing), every `samplerId` stored in the
music catalog or the sample catalog is an index of the pool, and `playMusic(name)` and
`playSample(name)` return (a stream or the empty pointer) for every name: they do not take
the out-of-range branch, nor fail otherwise. -/
theorem load_consistency (file : String) (canOpen : String → Bool)
    (root : Option (List ImageDescriptor)) (acts : List Action) (name : String)
    (hacts : acts.all (fun a => !a.isRegistration) = true) :
    (∀ kv ∈ ((create file canOpen root).run acts).music.entries,
        kv.2.samplerId < ((create file canOpen root).run acts).samplers.length) ∧
      (∀ kv ∈ ((create file canOpen root).run acts).samples.entries,
        kv.2.samplerId < ((create file canOpen root).run acts).samplers.length) ∧
      (∃ h, (((create file canOpen root).run acts).playMusic name).result = Except.ok h) ∧
      (∃ h, (((create file canOpen root).run acts).playSample name).result = Except.ok h) := by
  obtain ⟨hm, hs⟩ := create_entries_valid file canOpen root
  obtain ⟨hcm, hcs⟩ := run_catalogs (create file canOpen root) acts hacts
  obtain ⟨hlen, -⟩ := origin_run (create file canOpen root) acts
  have hP := poolIntact_run _ _ (poolIntact_create file canOpen root) acts
  have hm2 : ∀ kv ∈ ((create file canOpen root).run acts).music.entries,
      kv.2.samplerId < ((create file canOpen root).run acts).samplers.length := by
    rw [hcm, hlen]; exact hm
  have hs2 : ∀ kv ∈ ((create file canOpen root).run acts).samples.entries,
      kv.2.samplerId < ((create file canOpen root).run acts).samplers.length := by
    rw [hcs, hlen]; exact hs
  have hC : Consistent ((create file canOpen root).run acts) :=
    ⟨fun n e h => hm2 (n, e) (Catalog.mem_of_findIn _ n e h),
      fun n e h => hs2 (n, e) (Catalog.mem_of_findIn _ n e h),
      fun c hc => by rw [hP.size]; exact hP.current_valid c hc,
      fun j ch hj => hP.present j ch (by rw [← hP.size]; exact hj)⟩
  exact ⟨hm2, hs2, (playMusic_consistent _ hC name).2.2, (playSample_consistent _ hC name).2.2⟩

theorem load_consistency_witness :
    (∃ h, ((twoImages.run [Action.playSample "hit", Action.stopMusic]).playMusic
        "theme").result = Except.ok h) ∧
      (∃ h, ((twoImages.run [Action.playSample "hit", Action.stopMusic]).playSample
        "hit").result = Except.ok h) :=
  ⟨(load_consistency "sounds.json" (fun _ => true) (some [imageA, imageB])
      [Action.playSample "hit", Action.stopMusic] "theme" (by decide)).2.2.1,
    (load_consistency "sounds.json" (fun _ => true) (some [imageA, imageB])
      [Action.playSample "hit", Action.stopMusic] "hit" (by decide)).2.2.2⟩

/-! ## Claim C17: arbitration looks at the right stream -/

theorem approvedIsPlaying_act (n : Nat) (s : SoundLibrary) (hP : PoolIntact n s)
    (hA : ApprovedIsPlaying s) (a : Action) : ApprovedIsPlaying (s.act a) := by
  cases a with
  | addMusic nm e => exact hA
  | addSample nm e => exact hA
  | playMusic nm =>
    rcases playMusic_pool s nm with h | ⟨e, pool, -, -, hstate, -, hpool⟩
    · rw [show s.act (Action.playMusic nm) = s from h]; exact hA
    · rw [show s.act (Action.playMusic nm) = _ from hstate]
      intro j st hst hp
      have := hpool j Channel.sample
      simp only at this
      exact hA j st (by rw [← this]; exact hst) hp
  | playSample nm =>
    rcases playSample_intact n s hP nm with h | ⟨e, -, -, h⟩ | ⟨e, tgt, -, htgt, hrun⟩
    · rw [show s.act (Action.playSample nm) = (s.playSample nm).state from rfl, h]; exact hA
    · rw [show s.act (Action.playSample nm) = (s.playSample nm).state from rfl, h]; exact hA
    · obtain ⟨pool, hplay, -, -, hpool⟩ := playApproved_of_streamAt s e htgt
      rw [show s.act (Action.playSample nm) = (s.playSample nm).state from rfl, hrun, hplay]
      intro j st hst hp
      by_cases hj : j = e.samplerId
      · exact ⟨e, rfl, hj.symm⟩
      · have h1 : streamAt pool j Channel.sample = some st := hst
        rw [hpool] at h1
        simp only [hj, false_and, if_false] at h1
        cases hsrc : streamAt s.samplers j Channel.sample with
        | none => simp [hsrc] at h1
        | some src =>
          simp [hsrc] at h1
          subst h1
          simp [NSFSoundStream.getStatus, NSFSoundStream.stop] at hp
  | stopMusic =>
    intro j st hst hp
    have h1 : streamAt s.stopMusic.1.samplers j Channel.sample = some st := hst
    rw [stopMusic_samplers, streamAt_haltMusic] at h1
    exact hA j st h1 hp
  | stopSample =>
    intro j st hst hp
    have h1 : streamAt s.stopSample.1.samplers j Channel.sample = some st := hst
    rw [stopSample_samplers, streamAt_haltSample] at h1
    cases hsrc : streamAt s.samplers j Channel.sample with
    | none => simp [hsrc] at h1
    | some src =>
      simp [hsrc] at h1
      subst h1
      simp [NSFSoundStream.getStatus, NSFSoundStream.stop] at hp
  | finish slot c =>
    intro j st hst hp
    have h1 : streamAt (finishStream s.samplers slot c) j Channel.sample = some st := hst
    rcases (finishStream_pool s.samplers slot c).2 j Channel.sample with h | ⟨src, -, h⟩
    · rw [h] at h1; exact hA j st h1 hp
    · rw [h] at h1
      have : src.stop = st := by simpa using h1
      subst this
      simp [NSFSoundStream.getStatus, NSFSoundStream.stop] at hp

theorem approvedIsPlaying_run (n : Nat) (s : SoundLibrary) (hP : PoolIntact n s)
    (hA : ApprovedIsPlaying s) (acts : List Action) : ApprovedIsPlaying (s.run acts) := by
  induction acts generalizing s with
  | nil => exact hA
  | cons a rest ih => exact ih (s.act a) (poolIntact_act n s hP a) (approvedIsPlaying_act n s hP hA a)

theorem approvedIsPlaying_create (file : String) (canOpen : String → Bool)
    (root : Option (List ImageDescriptor)) : ApprovedIsPlaying (create file canOpen root) := by
  intro j st hst hp
  rw [streamAt_create] at hst
  cases hd : (root.getD [])[j]? with
  | none => simp [hd] at hst
  | some d =>
    simp [hd] at hst
    subst hst
    simp [NSFSoundStream.getStatus, NSFSoundStream.openImage, NSFSoundStream.fresh] at hp

/-- C17. Arbitration looks at the right stream: in every state reached from a constructed
library by any history of `addMusic`, `addSample`, `playMusic`, `playSample`, `stopMusic`,
`stopSample` calls and of playing streams finishing, a sample stream that reports Playing is
the sample stream of the pair at the `samplerId` of the recorded approved sample; hence, when
no approved sample is recorded or the stream of the approved sample does not report Playing,
no sample stream of the pool reports Playing. -/
theorem approved_is_the_playing_stream (file : String) (canOpen : String → Bool)
    (root : Option (List ImageDescriptor)) (acts : List Action) :
    (∀ j st, streamAt ((create file canOpen root).run acts).samplers j Channel.sample = some st →
      st.getStatus = Status.Playing →
      ∃ c, ((create file canOpen root).run acts).currentlyPlayingSample = some c ∧
        c.samplerId = j) ∧
    ((∀ c st, ((create file canOpen root).run acts).currentlyPlayingSample = some c →
        streamAt ((create file canOpen root).run acts).samplers c.samplerId Channel.sample =
          some st → st.getStatus ≠ Status.Playing) →
      playingCount Channel.sample ((create file canOpen root).run acts).samplers = 0) := by
  have hA : ApprovedIsPlaying ((create file canOpen root).run acts) :=
    approvedIsPlaying_run _ _ (poolIntact_create file canOpen root)
      (approvedIsPlaying_create file canOpen root) acts
  refine ⟨hA, ?_⟩
  intro hidle
  apply playingCount_eq_zero_of
  intro j st hst hp
  obtain ⟨c, hc, hj⟩ := hA j st hst hp
  subst hj
  exact hidle c st hc hst hp

theorem approved_is_the_playing_stream_witness :
    ∃ c, (twoImages.run [Action.addSample "gone" ⟨0, 9, 7⟩, Action.playSample "hit",
        Action.playSample "gone", Action.playMusic "theme"]).currentlyPlayingSample = some c ∧
      c.samplerId = 1 :=
  (approved_is_the_playing_stream "sounds.json" (fun _ => true) (some [imageA, imageB])
    [Action.addSample "gone" ⟨0, 9, 7⟩, Action.playSample "hit", Action.playSample "gone",
      Action.playMusic "theme"]).1 1 ⟨Status.Playing, 2, "b.nsf", true⟩ (by decide) (by decide)

end hikari

namespace hikari
open SoundLibrary

/-! ## Claim C19: the approved sample can always be resolved -/

/-- C19. The approved-sample reference is always resolvable: in every state reached from a
constructed library by any history of `addMusic`, `addSample` (entries pointing outside the
pool included), `playMusic`, `playSample`, `stopMusic`, `stopSample` calls and of streams
finishing, the approved-sample reference is absent or an entry whose `samplerId` is an index
of the pool, so the pair looked up for it during arbitration exists; and when `playSample`
fails with the out-of-range failure, the entry registered under the requested name is the one
that points outside the pool. -/
theorem approved_resolvable (file : String) (canOpen : String → Bool)
    (root : Option (List ImageDescriptor)) (acts : List Action) (name : String) :
    (∀ c, ((create file canOpen root).run acts).currentlyPlayingSample = some c →
      c.samplerId < ((create file canOpen root).run acts).samplers.length ∧
      ∃ p, ((create file canOpen root).run acts).samplers[c.samplerId]? = some p) ∧
    ((((create file canOpen root).run acts).playSample name).result =
        Except.error Failure.outOfRange →
      ∃ e, ((create file canOpen root).run acts).samples.find name = some e ∧
        ((create file canOpen root).run acts).samplers.length ≤ e.samplerId) := by
  have hP := poolIntact_run _ _ (poolIntact_create file canOpen root) acts
  constructor
  · intro c hc
    have hlt : c.samplerId < ((create file canOpen root).run acts).samplers.length := by
      rw [hP.size]; exact hP.current_valid c hc
    exact ⟨hlt, _, List.getElem?_eq_getElem hlt⟩
  · intro hres
    rcases playSample_intact _ _ hP name with h | ⟨e, he, hge, -⟩ | ⟨e, tgt, -, htgt, hrun⟩
    · rw [h] at hres; simp at hres
    · exact ⟨e, he, hge⟩
    · obtain ⟨pool, hplay, -, -, -⟩ := playApproved_of_streamAt _ e htgt
      rw [hrun, hplay] at hres
      simp at hres

theorem approved_resolvable_witness :
    ∃ e, (twoImages.run [Action.addSample "gone" ⟨0, 9, 7⟩, Action.playSample "hit",
        Action.playSample "gone"]).samples.find "gone" = some e ∧
      (twoImages.run [Action.addSample "gone" ⟨0, 9, 7⟩, Action.playSample "hit",
        Action.playSample "gone"]).samplers.length ≤ e.samplerId :=
  (approved_resolvable "sounds.json" (fun _ => true) (some [imageA, imageB])
    [Action.addSample "gone" ⟨0, 9, 7⟩, Action.playSample "hit", Action.playSample "gone"]
    "gone").2 rfl

/-! ## Claim C20: no absent stream is ever played -/

/-- C20. No absent stream is ever played: every pair the constructor puts in the pool has both
its music and its sample stream, whether or not the image could be opened; in every state
reached by any history of actions the pool still has one pair per image of the manifest, and
each stream of each pair is there and is the one opened from that image; so `playMusic` and
`playSample` never make a call on an absent stream, and `stopMusic` and `stopSample` reach
every slot of the pool. -/
theorem no_absent_stream (file : String) (canOpen : String → Bool)
    (root : Option (List ImageDescriptor)) (acts : List Action) (name : String) :
    (∀ p ∈ (create file canOpen root).samplers,
      p.musicStream.isSome = true ∧ p.sampleStream.isSome = true) ∧
    ((create file canOpen root).run acts).samplers.length = (root.getD []).length ∧
    (∀ j ch, (streamAt ((create file canOpen root).run acts).samplers j ch).map
        NSFSoundStream.origin = ((root.getD [])[j]?).map (fun d => (d.file, canOpen d.file))) ∧
    (((create file canOpen root).run acts).playMusic name).result ≠
      Except.error Failure.nullStream ∧
    (((create file canOpen root).run acts).playSample name).result ≠
      Except.error Failure.nullStream ∧
    (∀ j, j < ((create file canOpen root).run acts).samplers.length →
      (⟨j, Channel.music, Call.stop⟩ : Command) ∈
        ((create file canOpen root).run acts).stopMusic.2 ∧
      (⟨j, Channel.sample, Call.stopAllSamplers⟩ : Command) ∈
        ((create file canOpen root).run acts).stopSample.2 ∧
      (⟨j, Channel.sample, Call.stop⟩ : Command) ∈
        ((create file canOpen root).run acts).stopSample.2) := by
  have hP := poolIntact_run _ _ (poolIntact_create file canOpen root) acts
  obtain ⟨hlen, horigin⟩ := origin_run (create file canOpen root) acts
  refine ⟨?_, hP.size, ?_, ?_, ?_, ?_⟩
  · intro p hp
    rw [create_samplers] at hp
    obtain ⟨d, -, rfl⟩ := List.mem_map.mp hp
    exact ⟨rfl, rfl⟩
  · intro j ch
    rw [horigin, streamAt_create]
    cases (root.getD [])[j]? <;> rfl
  · intro hres
    rcases playMusic_intact _ _ hP name with h | ⟨e, -, -, h⟩ | ⟨e, -, -, h⟩
    · rw [h] at hres; simp at hres
    · rw [h] at hres; simp at hres
    · rw [h] at hres; simp at hres
  · intro hres
    rcases playSample_intact _ _ hP name with h | ⟨e, -, -, h⟩ | ⟨e, tgt, -, htgt, hrun⟩
    · rw [h] at hres; simp at hres
    · rw [h] at hres; simp at hres
    · obtain ⟨pool, hplay, -, -, -⟩ := playApproved_of_streamAt _ e htgt
      rw [hrun, hplay] at hres
      simp at hres
  · intro j hj
    obtain ⟨m, hm⟩ := Option.isSome_iff_exists.mp
      (hP.present j Channel.music (by rw [← hP.size]; exact hj))
    obtain ⟨x, hx⟩ := Option.isSome_iff_exists.mp
      (hP.present j Channel.sample (by rw [← hP.size]; exact hj))
    have h1 := stop_mem_stopMusicFrom 0 _ j m hm
    have h2 := stop_mem_stopSampleFrom 0 _ j x hx
    simp only [Nat.zero_add] at h1 h2
    exact ⟨h1, h2.1, h2.2⟩

theorem no_absent_stream_witness :
    (⟨1, Channel.music, Call.stop⟩ : Command) ∈
        ((create "sounds.json" (fun _ => false) (some [imageA, imageB])).run
          [Action.playSample "hit", Action.finish 1 Channel.sample]).stopMusic.2 ∧
      (⟨1, Channel.sample, Call.stopAllSamplers⟩ : Command) ∈
        ((create "sounds.json" (fun _ => false) (some [imageA, imageB])).run
          [Action.playSample "hit", Action.finish 1 Channel.sample]).stopSample.2 ∧
      (⟨1, Channel.sample, Call.stop⟩ : Command) ∈
        ((create "sounds.json" (fun _ => false) (some [imageA, imageB])).run
          [Action.playSample "hit", Action.finish 1 Channel.sample]).stopSample.2 :=
  (no_absent_stream "sounds.json" (fun _ => false) (some [imageA, imageB])
    [Action.playSample "hit", Action.finish 1 Channel.sample] "hit").2.2.2.2.2 1 (by decide)

end hikari
